import Mathlib

/-!
Incremental file backup utility: timestamps, command line and traversal.

A shallow embedding of the timestamp code of `src/backupfiles.c`
(`isValidTime`, `toPower`, `convertStrToNum`, `convertCalToArr`,
`convertTimeToArr`, `t1GTt2`, `formatTimeStr` and the filter test of
`readDir`), of its command line and traversal (`commandLineSwitch`, `main`,
`readDir`, `traverse`) and of `getPermissions`, followed by theorems about it.

Conventions of the embedding.

* A C `char` is the integer it promotes to in an expression (`Int`); the
  character literal `'0'` of the source is written `ord '0'`.
* A C string is the list of its characters before the terminating NUL.
  `charAt s i` is `s[i]` for such a string: the character at `i`, and the
  terminator `0` at `i = s.length`.
* `strtok` writes into the buffer it scans, so the comparator works on
  explicit buffers (a list of characters that holds its NULs); a read outside
  a buffer, the use of a NULL token and a copy that does not fit its
  destination are failures (`none`).
* `int` values are `Int`; the numbers handled here stay far below `2^31`.
-/

namespace BackupFiles

/-! ## Characters and strings -/

/-- The integer value of a character literal of the source. -/
def ord (c : Char) : Int := (c.toNat : Int)

/-- The C string with the characters of a string literal. -/
def cstr (s : String) : List Int := s.toList.map ord

/-- The character `s[i]` of a NUL-terminated string whose characters before the
terminator are `s`; index `s.length` holds the terminator. Later positions read
`0` as well; every test of `isValidTime` rejects `0`, so the validator never
gets past the terminator and those positions decide nothing. -/
def charAt (s : List Int) (i : Nat) : Int := s.getD i 0

/-! ## isValidTime (src/backupfiles.c, lines 546-637) -/

/-- The validator `isValidTime`: the chain of `if / else if` tests of the
source, in the source's order, each returning `-1`; `1` when none fires. -/
def isValidTime (time : List Int) : Int :=
  if charAt time 0 < ord '0' ∨ charAt time 0 > ord '9' then -1
  else if charAt time 1 < ord '0' ∨ charAt time 1 > ord '9' then -1
  else if charAt time 2 < ord '0' ∨ charAt time 2 > ord '9' then -1
  else if charAt time 3 < ord '0' ∨ charAt time 3 > ord '9' then -1
  else if charAt time 4 ≠ ord '-' then -1
  else if charAt time 5 < ord '0' ∨ charAt time 5 > ord '1' then -1
  else if charAt time 6 < ord '0' ∨ charAt time 6 > ord '9'
      ∨ (charAt time 6 > ord '2' ∧ charAt time 5 = ord '1') then -1
  else if charAt time 7 ≠ ord '-' then -1
  else if charAt time 8 < ord '0' ∨ charAt time 8 > ord '3' then -1
  else if charAt time 9 < ord '0' ∨ charAt time 9 > ord '9'
      ∨ (charAt time 9 > ord '1' ∧ charAt time 8 = ord '3') then -1
  else if charAt time 10 ≠ ord ' ' then -1
  else if charAt time 11 < ord '0' ∨ charAt time 11 > ord '2' then -1
  else if charAt time 12 < ord '0' ∨ charAt time 12 > ord '9'
      ∨ (charAt time 12 > ord '3' ∧ charAt time 11 = ord '2') then -1
  else if charAt time 13 ≠ ord ':' then -1
  else if charAt time 14 < ord '0' ∨ charAt time 14 > ord '5' then -1
  else if charAt time 15 < ord '0' ∨ charAt time 15 > ord '9' then -1
  else if charAt time 16 ≠ ord ':' then -1
  else if charAt time 17 < ord '0' ∨ charAt time 17 > ord '5' then -1
  else if charAt time 18 < ord '0' ∨ charAt time 18 > ord '9' then -1
  else 1

/-! ## toPower and convertStrToNum (lines 212-250) -/

/-- The loop of `toPower`: `n` more rounds of `val *= base`. -/
def toPowerLoop (base : Int) : Nat → Int → Int
  | 0, val => val
  | n + 1, val => toPowerLoop base n (val * base)

/-- The function `toPower(val, ex)`: the loop body runs for `i = 0, .., ex - 2`. -/
def toPower (val ex : Int) : Int := toPowerLoop val (ex - 1).toNat val

/-- The loop of `convertStrToNum` over the characters still to read, with the
running `exponent` and `num`. -/
def convertStrToNumLoop : List Int → Int → Int → Int
  | [], _, num => num
  | c :: cs, exponent, num =>
    let digit := c - ord '0'
    let digit := if exponent > 0 then digit * toPower 10 exponent else digit * 1
    convertStrToNumLoop cs (exponent - 1) (num + digit)

/-- The function `convertStrToNum(str)`, `str` being the characters before the
terminator (`numLength = strlen(str)`). -/
def convertStrToNum (str : List Int) : Int :=
  convertStrToNumLoop str ((str.length : Int) - 1) 0

/-! ## Buffers, convertTimeToArr and convertCalToArr (lines 260-337) -/

/-- Read `buf[i]`; `none` outside the buffer. -/
def readBuf (buf : List Int) (i : Nat) : Option Int := buf.get? i

/-- The C string held by a character array: its characters before the first NUL. -/
def strOfArray (arr : List Int) : List Int := arr.takeWhile (fun c => c ≠ 0)

/-- The function `convertTimeToArr(time)`, `time` pointing at offset `time` of
`buf`: the arrays `hours`, `minutes` and `seconds` are filled from the fixed
positions 0, 1, 3, 4, 6, 7 and each is converted as a C string. -/
def convertTimeToArr (buf : List Int) (time : Nat) : Option (Int × Int × Int) := do
  let hours := [← readBuf buf time, ← readBuf buf (time + 1), 0]
  let minutes := [← readBuf buf (time + 3), ← readBuf buf (time + 4), 0]
  let seconds := [← readBuf buf (time + 6), ← readBuf buf (time + 7), 0]
  let hoursNum := convertStrToNum (strOfArray hours)
  let minutesNum := convertStrToNum (strOfArray minutes)
  let secondsNum := convertStrToNum (strOfArray seconds)
  pure (hoursNum, minutesNum, secondsNum)

/-- The function `convertCalToArr(cal)`, `cal` pointing at offset `cal` of `buf`:
the arrays `year`, `month` and `day` are filled from the fixed positions
0..3, 5, 6, 8, 9 and each is converted as a C string. -/
def convertCalToArr (buf : List Int) (cal : Nat) : Option (Int × Int × Int) := do
  let year := [← readBuf buf cal, ← readBuf buf (cal + 1), ← readBuf buf (cal + 2),
    ← readBuf buf (cal + 3), 0]
  let month := [← readBuf buf (cal + 5), ← readBuf buf (cal + 6), 0]
  let day := [← readBuf buf (cal + 8), ← readBuf buf (cal + 9), 0]
  let yearNum := convertStrToNum (strOfArray year)
  let monthNum := convertStrToNum (strOfArray month)
  let dayNum := convertStrToNum (strOfArray day)
  pure (yearNum, monthNum, dayNum)

/-! ## strtok with the delimiter set `" "` -/

/-- The value `strspn(p, " ")` for the characters `s` from `p` on: how many
leading spaces there are. -/
def strspn (s : List Int) : Nat := (s.takeWhile (fun c => c = ord ' ')).length

/-- The value `strcspn(p, " ")` for the characters `s` from `p` on: how many
leading characters are neither a space nor the terminator. -/
def strcspn (s : List Int) : Nat :=
  (s.takeWhile (fun c => c ≠ ord ' ' ∧ c ≠ 0)).length

/-- One call of `strtok(.., " ")` scanning `buf` from offset `start` (`0` for
`strtok(str, " ")`, the saved position for `strtok(NULL, " ")`). It skips the
leading spaces; at the terminator it returns NULL; otherwise the token runs to
the next space or terminator, a space is overwritten with NUL, and the scan
position is saved. The result is the token (its offset, `none` for NULL), the
buffer after the call and the saved position. -/
def strtok (buf : List Int) (start : Nat) : Option (Option Nat × List Int × Nat) := do
  let s := start + strspn (buf.drop start)
  let c ← readBuf buf s
  if c = 0 then pure (none, buf, s)
  else
    let e := s + strcspn (buf.drop s)
    let d ← readBuf buf e
    if d = 0 then pure (some s, buf, e)
    else pure (some s, buf.set e 0, e + 1)

/-! ## t1GTt2 (lines 349-402) -/

/-- The comparison at the end of `t1GTt2` (lines 376-401) on the four arrays. -/
def t1GTt2Compare (t1CalArr t1TimeArr t2CalArr t2TimeArr : Int × Int × Int) : Int :=
  if t1CalArr.1 > t2CalArr.1 then 1
  else if t1CalArr.1 = t2CalArr.1 ∧ t1CalArr.2.1 > t2CalArr.2.1 then 1
  else if t1CalArr.1 = t2CalArr.1 ∧ t1CalArr.2.2 > t2CalArr.2.2 then 1
  else if t1CalArr.1 = t2CalArr.1 ∧ t1CalArr.2.1 = t2CalArr.2.1
      ∧ t1CalArr.2.2 = t2CalArr.2.2 then
    if t1TimeArr.1 > t2TimeArr.1 then 1
    else if t1TimeArr.1 = t2TimeArr.1 ∧ t1TimeArr.2.1 > t2TimeArr.2.1 then 1
    else if t1TimeArr.1 = t2TimeArr.1 ∧ t1TimeArr.2.1 = t2TimeArr.2.1
        ∧ t1TimeArr.2.2 > t2TimeArr.2.2 then 1
    else 0
  else 0

/-- The function `t1GTt2(t1, t2)`. `t2` is copied into the 48-byte `t2Copy`
(a failure when it does not fit); `t1` and the copy are tokenised with
`strtok`, the two tokens of each are converted, and the arrays are compared.
A NULL token handed to a conversion is a failure. -/
def t1GTt2 (t1 t2 : List Int) : Option Int :=
  if 48 < t2.length + 1 then none
  else do
    let t1Buf := t1 ++ [0]
    let t2Copy := t2 ++ [0]
    let (t1Cal, t1Buf, save) ← strtok t1Buf 0
    let (t1Time, t1Buf, _) ← strtok t1Buf save
    let (t2Cal, t2Copy, save) ← strtok t2Copy 0
    let (t2Time, t2Copy, _) ← strtok t2Copy save
    let t1CalArr ← convertCalToArr t1Buf (← t1Cal)
    let t1TimeArr ← convertTimeToArr t1Buf (← t1Time)
    let t2CalArr ← convertCalToArr t2Copy (← t2Cal)
    let t2TimeArr ← convertTimeToArr t2Copy (← t2Time)
    pure (t1GTt2Compare t1CalArr t1TimeArr t2CalArr t2TimeArr)

/-- The six fields of a timestamp, as the comparator holds them: the calendar
array `[year, month, day]` and the time array `[hour, minute, second]`. -/
abbrev Fields := (Int × Int × Int) × (Int × Int × Int)

/-- The fields `t1GTt2` obtains from one timestamp string: the string is
tokenised in its buffer, `convertCalToArr` reads the first token and
`convertTimeToArr` the second. -/
def stampFields (t : List Int) : Option Fields := do
  let buf := t ++ [0]
  let (cal, buf, save) ← strtok buf 0
  let (time, buf, _) ← strtok buf save
  let calArr ← convertCalToArr buf (← cal)
  let timeArr ← convertTimeToArr buf (← time)
  pure (calArr, timeArr)

/-! ## formatTimeStr (lines 76-85) and the filter test of readDir (line 480) -/

/-- The fields of `struct tm` that `formatTimeStr` reads. -/
structure Tm where
  tm_sec : Int
  tm_min : Int
  tm_hour : Int
  tm_mday : Int
  tm_mon : Int
  tm_year : Int

/-- The conversion `%d` of `snprintf`: a minus sign for a negative value, then
the decimal digits. -/
def fmtD (v : Int) : List Int :=
  if v < 0 then ord '-' :: (Nat.toDigits 10 v.natAbs).map ord
  else (Nat.toDigits 10 v.toNat).map ord

/-- The conversion `%02d` of `snprintf`: as `%d`, padded with zeros to two
characters. -/
def fmt02D (v : Int) : List Int :=
  let s := fmtD v
  List.replicate (2 - s.length) (ord '0') ++ s

/-- The constant `TIME_SIZE`. -/
def TIME_SIZE : Nat := 128

/-- The function `formatTimeStr`, from the broken-down time `timeInfo` that
`localtime` returned: `snprintf` with the format `"%d-%02d-%02d %02d:%02d:%d"`
into a buffer of `TIME_SIZE` bytes, which keeps at most `TIME_SIZE - 1`
characters. -/
def formatTimeStr (timeInfo : Tm) : List Int :=
  (fmtD (timeInfo.tm_year + 1900) ++ [ord '-'] ++ fmt02D (timeInfo.tm_mon + 1) ++ [ord '-']
    ++ fmt02D timeInfo.tm_mday ++ [ord ' '] ++ fmt02D timeInfo.tm_hour ++ [ord ':']
    ++ fmt02D timeInfo.tm_min ++ [ord ':'] ++ fmtD timeInfo.tm_sec).take (TIME_SIZE - 1)

/-- The test of `readDir` that decides whether an entry is printed:
`t1GTt2(formatTimeStr(fileData.st_mtime), timeLimit) == 1`, for the entry's
modification time `mtime` as broken-down local time. -/
def readDirTest (mtime : Tm) (timeLimit : List Int) : Option Bool :=
  (t1GTt2 (formatTimeStr mtime) timeLimit).map (fun r => decide (r = 1))

/-! ## The layout rules, as the specification words them -/

/-- A decimal digit character. -/
def isDecDigit (c : Int) : Prop := ord '0' ≤ c ∧ c ≤ ord '9'

instance (c : Int) : Decidable (isDecDigit c) := by
  unfold isDecDigit; infer_instance

/-- The per-position rules of the layout `YYYY-MM-DD hh:mm:ss`, position by
position as the specification lists them. -/
def layoutRules (s : List Int) : Prop :=
  isDecDigit (charAt s 0) ∧ isDecDigit (charAt s 1) ∧
  isDecDigit (charAt s 2) ∧ isDecDigit (charAt s 3) ∧
  charAt s 4 = ord '-' ∧
  (charAt s 5 = ord '0' ∨ charAt s 5 = ord '1') ∧
  (isDecDigit (charAt s 6) ∧ (charAt s 5 = ord '1' → charAt s 6 ≤ ord '2')) ∧
  charAt s 7 = ord '-' ∧
  (charAt s 8 = ord '0' ∨ charAt s 8 = ord '1' ∨ charAt s 8 = ord '2'
    ∨ charAt s 8 = ord '3') ∧
  (isDecDigit (charAt s 9) ∧ (charAt s 8 = ord '3' → charAt s 9 ≤ ord '1')) ∧
  charAt s 10 = ord ' ' ∧
  (charAt s 11 = ord '0' ∨ charAt s 11 = ord '1' ∨ charAt s 11 = ord '2') ∧
  (isDecDigit (charAt s 12) ∧ (charAt s 11 = ord '2' → charAt s 12 ≤ ord '3')) ∧
  charAt s 13 = ord ':' ∧
  (ord '0' ≤ charAt s 14 ∧ charAt s 14 ≤ ord '5') ∧
  isDecDigit (charAt s 15) ∧
  charAt s 16 = ord ':' ∧
  (ord '0' ≤ charAt s 17 ∧ charAt s 17 ≤ ord '5') ∧
  isDecDigit (charAt s 18)

instance (s : List Int) : Decidable (layoutRules s) := by
  unfold layoutRules; infer_instance

/-- The positions that hold a digit in the layout `YYYY-MM-DD hh:mm:ss`. -/
def digitPositions : List Nat := [0, 1, 2, 3, 5, 6, 8, 9, 11, 12, 14, 15, 17, 18]

/-- A string breaks a per-position rule: one of the violations the
specification names. -/
def violatesRule (s : List Int) : Prop :=
  (∃ i ∈ digitPositions, ¬ isDecDigit (charAt s i)) ∨
  charAt s 4 ≠ ord '-' ∨ charAt s 7 ≠ ord '-' ∨ charAt s 10 ≠ ord ' ' ∨
  charAt s 13 ≠ ord ':' ∨ charAt s 16 ≠ ord ':' ∨
  charAt s 5 > ord '1' ∨
  (charAt s 6 > ord '2' ∧ charAt s 5 = ord '1') ∨
  charAt s 8 > ord '3' ∨
  (charAt s 9 > ord '1' ∧ charAt s 8 = ord '3') ∨
  charAt s 11 > ord '2' ∨
  (charAt s 12 > ord '3' ∧ charAt s 11 = ord '2') ∨
  charAt s 14 > ord '5' ∨ charAt s 17 > ord '5'

instance (s : List Int) : Decidable (violatesRule s) := by
  unfold violatesRule; infer_instance

/-! ## The timestamp fields and their order, as the specification words them -/

/-- Strictly after, in lexicographic order over (year, month, day, hour, minute,
second): compare the year first, only if equal the month, only if equal the
day, then hour, minute and second. -/
def isAfter (a b : Fields) : Prop :=
  a.1.1 > b.1.1 ∨ (a.1.1 = b.1.1 ∧
    (a.1.2.1 > b.1.2.1 ∨ (a.1.2.1 = b.1.2.1 ∧
      (a.1.2.2 > b.1.2.2 ∨ (a.1.2.2 = b.1.2.2 ∧
        (a.2.1 > b.2.1 ∨ (a.2.1 = b.2.1 ∧
          (a.2.2.1 > b.2.2.1 ∨ (a.2.2.1 = b.2.2.1 ∧ a.2.2.2 > b.2.2.2)))))))))

instance (a b : Fields) : Decidable (isAfter a b) := by
  unfold isAfter; infer_instance

/-- The field ranges of the data model: month 1..12, day 1..31, hour 0..23,
minute 0..59 and second 0..59. -/
def inSpecRange (f : Fields) : Prop :=
  (1 ≤ f.1.2.1 ∧ f.1.2.1 ≤ 12) ∧ (1 ≤ f.1.2.2 ∧ f.1.2.2 ≤ 31) ∧
  (0 ≤ f.2.1 ∧ f.2.1 ≤ 23) ∧ (0 ≤ f.2.2.1 ∧ f.2.2.1 ≤ 59) ∧
  (0 ≤ f.2.2.2 ∧ f.2.2.2 ≤ 59)

instance (f : Fields) : Decidable (inSpecRange f) := by
  unfold inSpecRange; infer_instance

/-- The fields of a broken-down modification time: year `tm_year + 1900`, month
`tm_mon + 1`, then day, hour, minute and second. -/
def tmFields (t : Tm) : Fields :=
  ((t.tm_year + 1900, t.tm_mon + 1, t.tm_mday), (t.tm_hour, t.tm_min, t.tm_sec))

/-- A modification time with a four-digit year 1000..9999, month 1..12, day
1..31, hour 0..23, minute 0..59 and second 0..59. -/
def tmInRange (t : Tm) : Prop :=
  (1000 ≤ t.tm_year + 1900 ∧ t.tm_year + 1900 ≤ 9999) ∧
  (1 ≤ t.tm_mon + 1 ∧ t.tm_mon + 1 ≤ 12) ∧
  (1 ≤ t.tm_mday ∧ t.tm_mday ≤ 31) ∧
  (0 ≤ t.tm_hour ∧ t.tm_hour ≤ 23) ∧
  (0 ≤ t.tm_min ∧ t.tm_min ≤ 59) ∧
  (0 ≤ t.tm_sec ∧ t.tm_sec ≤ 59)

instance (t : Tm) : Decidable (tmInRange t) := by
  unfold tmInRange; infer_instance

/-- The place-value reading of the digit positions of a timestamp string. -/
def digitFields (s : List Int) : Fields :=
  (((charAt s 0 - 48) * 1000 + (charAt s 1 - 48) * 100 + (charAt s 2 - 48) * 10
      + (charAt s 3 - 48),
    (charAt s 5 - 48) * 10 + (charAt s 6 - 48),
    (charAt s 8 - 48) * 10 + (charAt s 9 - 48)),
   ((charAt s 11 - 48) * 10 + (charAt s 12 - 48),
    (charAt s 14 - 48) * 10 + (charAt s 15 - 48),
    (charAt s 17 - 48) * 10 + (charAt s 18 - 48)))

/-! ## getPermissions (backupfiles.c lines 129-200, listfiles.c lines 110-181) -/

/-- Modelled from the spec: the constant `S_IRUSR` of `<sys/stat.h>`, which the
repository does not define; the permission bit 0400. -/
def S_IRUSR : Nat := 0o400

/-- Modelled from the spec: the constant `S_IWUSR` of `<sys/stat.h>`; the
permission bit 0200. -/
def S_IWUSR : Nat := 0o200

/-- Modelled from the spec: the constant `S_IXUSR` of `<sys/stat.h>`; the
permission bit 0100. -/
def S_IXUSR : Nat := 0o100

/-- Modelled from the spec: the constant `S_IRGRP` of `<sys/stat.h>`; the
permission bit 0040. -/
def S_IRGRP : Nat := 0o040

/-- Modelled from the spec: the constant `S_IWGRP` of `<sys/stat.h>`; the
permission bit 0020. -/
def S_IWGRP : Nat := 0o020

/-- Modelled from the spec: the constant `S_IXGRP` of `<sys/stat.h>`; the
permission bit 0010. -/
def S_IXGRP : Nat := 0o010

/-- Modelled from the spec: the constant `S_IROTH` of `<sys/stat.h>`; the
permission bit 0004. -/
def S_IROTH : Nat := 0o004

/-- Modelled from the spec: the constant `S_IWOTH` of `<sys/stat.h>`; the
permission bit 0002. -/
def S_IWOTH : Nat := 0o002

/-- Modelled from the spec: the constant `S_IXOTH` of `<sys/stat.h>`; the
permission bit 0001. -/
def S_IXOTH : Nat := 0o001

/-- Modelled from the spec: the file-type mask `S_IFMT` of `<sys/stat.h>`,
which the repository does not define; no value is specified, the Linux one is
taken, and only the examples depend on it. -/
def S_IFMT : Nat := 0o170000

/-- Modelled from the spec: the file type `S_IFDIR` of `<sys/stat.h>`, which
the repository does not define; no value is specified, the Linux one is taken,
and only the examples depend on it. -/
def S_IFDIR : Nat := 0o040000

/-- Modelled from the spec: the macro `S_ISDIR(m)` of `<sys/stat.h>`,
`(((m) & S_IFMT) == S_IFDIR)`, with the `int` value of the comparison. -/
def S_ISDIR (m : Nat) : Int := if m &&& S_IFMT = S_IFDIR then 1 else 0

/-- The function `getPermissions(fileMode)` of `backupfiles.c`: the ten
characters written to `perStr[0..9]`, before the terminator written to
`perStr[10]`. A file mode is a natural number. (The size of the allocation is
not part of the embedding.) -/
def getPermissions (fileMode : Nat) : List Int :=
  [ if S_ISDIR fileMode = 1 then ord 'd' else ord '-',
    if (fileMode &&& S_IRUSR) > 0 then ord 'r' else ord '-',
    if (fileMode &&& S_IWUSR) > 0 then ord 'w' else ord '-',
    if (fileMode &&& S_IXUSR) > 0 then ord 'x' else ord '-',
    if (fileMode &&& S_IRGRP) > 0 then ord 'r' else ord '-',
    if (fileMode &&& S_IWGRP) > 0 then ord 'w' else ord '-',
    if (fileMode &&& S_IXGRP) > 0 then ord 'x' else ord '-',
    if (fileMode &&& S_IROTH) > 0 then ord 'r' else ord '-',
    if (fileMode &&& S_IWOTH) > 0 then ord 'w' else ord '-',
    if (fileMode &&& S_IXOTH) > 0 then ord 'x' else ord '-' ]

/-- The function `getPermissions(fileMode)` of `listfiles.c`, which has the same
text as the one of `backupfiles.c`. -/
def ListFiles.getPermissions (fileMode : Nat) : List Int :=
  [ if S_ISDIR fileMode = 1 then ord 'd' else ord '-',
    if (fileMode &&& S_IRUSR) > 0 then ord 'r' else ord '-',
    if (fileMode &&& S_IWUSR) > 0 then ord 'w' else ord '-',
    if (fileMode &&& S_IXUSR) > 0 then ord 'x' else ord '-',
    if (fileMode &&& S_IRGRP) > 0 then ord 'r' else ord '-',
    if (fileMode &&& S_IWGRP) > 0 then ord 'w' else ord '-',
    if (fileMode &&& S_IXGRP) > 0 then ord 'x' else ord '-',
    if (fileMode &&& S_IROTH) > 0 then ord 'r' else ord '-',
    if (fileMode &&& S_IWOTH) > 0 then ord 'w' else ord '-',
    if (fileMode &&& S_IXOTH) > 0 then ord 'x' else ord '-' ]

/-! ## readDir and traverse (lines 446-536) -/

deriving instance DecidableEq for Tm

/-- The loop of `readDir` over the entries that `readdir` yields, each entry
given by the broken-down modification time that `stat` reports for it: the
entries whose line is printed. -/
def readDirLoop (timeLimit : List Int) : List Tm → Option (List Tm)
  | [] => some []
  | entry :: rest =>
    match readDirTest entry timeLimit with
    | none => none
    | some newer =>
      match readDirLoop timeLimit rest with
      | none => none
      | some printed => some (if newer then entry :: printed else printed)

/-- The function `readDir(dir)` while `timeLimit` holds the threshold: `dir` is
what `opendir` yields, `none` for NULL and otherwise the entries of the
directory. The result is the return value and the entries printed. -/
def readDir (timeLimit : List Int) (dir : Option (List Tm)) : Option (Int × List Tm) :=
  match dir with
  | none => some (-1, [])
  | some entries =>
    match readDirLoop timeLimit entries with
    | none => none
    | some printed => some (0, printed)

/-- The callback `traverse` for an entry with mode `st_mode`; `dir` is what
`opendir(fpath)` yields for it. -/
def traverse (timeLimit : List Int) (st_mode : Nat) (dir : Option (List Tm)) : Option Int :=
  if S_ISDIR st_mode = 1 then
    match readDir timeLimit dir with
    | none => none
    | some (r, _) => if r = -1 then some (-1) else some 0
  else some 0

/-! ## commandLineSwitch and main (lines 662-718) -/

/-- The part of the file system and of the C library that `commandLineSwitch`
consults. -/
structure FileSystem where
  /-- The call `realpath(path, NULL)`: the resolved path, `none` for NULL. -/
  realpath : List Int → Option (List Int)
  /-- Whether `opendir` returns a directory stream for a resolved path. -/
  opendir : List Int → Bool
  /-- The broken-down local time of the `st_mtime` that `stat` reports for a
  resolved path. -/
  mtime : List Int → Tm
  /-- The value that `nftw(directory, traverse, 20, FTW_D)` returns while
  `timeLimit` holds the given threshold. -/
  nftw : List Int → List Int → Int

/-- What a call of `commandLineSwitch` leaves behind: its return value, the
global `timeLimit` (`none` while it was not assigned) and the traversal, the
directory `nftw` was started on with the value `nftw` returned (`none` when
`nftw` was not called). -/
structure Outcome where
  ret : Int
  timeLimit : Option (List Int)
  walk : Option (List Int × Int)
deriving DecidableEq

/-- How one round of the loop of `commandLineSwitch` ends: with a `return`, or
with the next round and the current value of `time`. -/
inductive Flow where
  | returned (value : Int)
  | continues (time : List Int)
deriving DecidableEq

/-- The string `argv[i]` handed to `strcmp`, `isValidTime` or `realpath`:
`none` when `argv[i]` is not a string, which is so for the NULL pointer
`argv[argc]` and beyond. -/
def argAt (argv : List (List Int)) (i : Nat) : Option (List Int) := argv.get? i

/-- One round of the loop of `commandLineSwitch` at index `i`. The second
`strcmp` reads `argv[i+1]` whenever `argv[i]` is `-t`. -/
def switchStep (fs : FileSystem) (argv : List (List Int)) (sizeOfArgs i : Nat)
    (time : List Int) : Option Flow :=
  match argAt argv i with
  | none => none
  | some arg =>
    if arg = cstr "-h" then some (Flow.returned 1)
    else if arg = cstr "-t" then
      match argAt argv (i + 1) with
      | none => none
      | some next =>
        if next ≠ cstr "-h" ∧ (i : Int) ≠ (sizeOfArgs : Int) - 2 then
          if isValidTime next = 1 then some (Flow.continues next)
          else
            match fs.realpath next with
            | none => some (Flow.returned (-1))
            | some file => some (Flow.continues (formatTimeStr (fs.mtime file)))
        else some (Flow.continues time)
    else some (Flow.continues time)

/-- The loop `for (i = 1; i < sizeOfArgs; i++)` of `commandLineSwitch` from index
`i` on, for at most `fuel` rounds (`none` when they do not suffice). -/
def switchLoop (fs : FileSystem) (argv : List (List Int)) (sizeOfArgs fuel i : Nat)
    (time : List Int) : Option Flow :=
  if i < sizeOfArgs then
    match fuel with
    | 0 => none
    | fuel + 1 =>
      match switchStep fs argv sizeOfArgs i time with
      | none => none
      | some (Flow.returned r) => some (Flow.returned r)
      | some (Flow.continues time) => switchLoop fs argv sizeOfArgs fuel (i + 1) time
  else some (Flow.continues time)

/-- The function `commandLineSwitch(argv, sizeOfArgs)`. After the loop the last
argument is resolved and the result is handed to `opendir` unchecked: when
`realpath` returns NULL, `opendir(NULL)` is no defined call and nothing is
returned. Otherwise the directory is opened, `timeLimit` is set and `nftw` is
called, whose return value is not used. -/
def commandLineSwitch (fs : FileSystem) (argv : List (List Int)) (sizeOfArgs : Nat) :
    Option Outcome :=
  match switchLoop fs argv sizeOfArgs sizeOfArgs 1 (cstr "1970-01-01 00:00:00") with
  | none => none
  | some (Flow.returned r) => some ⟨r, none, none⟩
  | some (Flow.continues time) =>
    if sizeOfArgs = 0 then none
    else
      match argAt argv (sizeOfArgs - 1) with
      | none => none
      | some last =>
        match fs.realpath last with
        | none => none
        | some directory =>
          if fs.opendir directory then
            some ⟨1, some time, some (directory, fs.nftw directory time)⟩
          else some ⟨-1, none, none⟩

/-- The constant `EXIT_SUCCESS` of `<stdlib.h>`. -/
def EXIT_SUCCESS : Int := 0

/-- The constant `EXIT_FAILURE` of `<stdlib.h>`. -/
def EXIT_FAILURE : Int := 1

/-- The function `main(argc, argv)` of `backupfiles.c`, `argc` being the length
of `argv`. -/
def main (fs : FileSystem) (argv : List (List Int)) : Option Int :=
  match commandLineSwitch fs argv argv.length with
  | none => none
  | some o => if o.ret = -1 then some EXIT_FAILURE else some EXIT_SUCCESS

/-- The function `main` of `listfiles.c`, from the value its call of `nftw`
returns. -/
def ListFiles.main (nftwResult : Int) : Int :=
  if nftwResult = -1 then EXIT_FAILURE else EXIT_SUCCESS

/-- The broken-down time with the given fields: `tm_year` is the year minus
1900 and `tm_mon` the month minus 1. -/
def tmOfFields (f : Fields) : Tm :=
  ⟨f.2.2.2, f.2.2.1, f.2.1, f.1.2.2, f.1.2.1 - 1, f.1.1 - 1900⟩

/-- A file system in which every path resolves to itself and opens as a
directory, every file was modified at 2000-01-01 00:00:00, and `nftw` returns
the given value. -/
def fsPresent (nftwResult : Int) : FileSystem :=
  ⟨fun p => some p, fun _ => true, fun _ => ⟨0, 0, 0, 1, 0, 100⟩, fun _ _ => nftwResult⟩

/-- A file system in which no path resolves. -/
def fsAbsent : FileSystem :=
  ⟨fun _ => none, fun _ => false, fun _ => ⟨0, 0, 0, 1, 0, 100⟩, fun _ _ => 0⟩

/-- A file system in which only the path `.` resolves and opens as a directory,
and `nftw` returns the given value. -/
def fsDot (nftwResult : Int) : FileSystem :=
  ⟨fun p => if p = cstr "." then some p else none, fun p => decide (p = cstr "."),
    fun _ => ⟨0, 0, 0, 1, 0, 100⟩, fun _ _ => nftwResult⟩

/-- A file mode has the permission bit `bit` set, for a mask `bit` of one bit
(0400, 0200, ..., 0001): the binary digit of the mode at that place is 1. -/
def hasBit (mode bit : Nat) : Prop := mode / bit % 2 = 1

instance (mode bit : Nat) : Decidable (hasBit mode bit) := by
  unfold hasBit; infer_instance

/-! ## convertStrToNum in 32-bit arithmetic -/

/-- The value of an `int` expression whose mathematical value is `x`: `none`
when it lies outside the 32-bit range (signed overflow). -/
def int32 (x : Int) : Option Int :=
  if -2147483648 ≤ x ∧ x ≤ 2147483647 then some x else none

/-- The loop of `toPower` with every product `val *= base` an `int`. -/
def toPowerLoop32 (base : Int) : Nat → Int → Option Int
  | 0, val => some val
  | n + 1, val =>
    match int32 (val * base) with
    | none => none
    | some val => toPowerLoop32 base n val

/-- The function `toPower(val, ex)` in `int` arithmetic. -/
def toPower32 (val ex : Int) : Option Int := toPowerLoop32 val (ex - 1).toNat val

/-- The loop of `convertStrToNum` with every operation (`str[i] - '0'`, the
product `digit *= ..`, `exponent--` and `num += digit`) an `int`. -/
def convertStrToNumLoop32 : List Int → Int → Int → Option Int
  | [], _, num => some num
  | c :: cs, exponent, num =>
    match int32 (c - ord '0') with
    | none => none
    | some digit =>
      match (if exponent > 0 then
          match toPower32 10 exponent with
          | none => none
          | some power => int32 (digit * power)
        else int32 (digit * 1)) with
      | none => none
      | some digit =>
        match int32 (exponent - 1), int32 (num + digit) with
        | some exponent, some num => convertStrToNumLoop32 cs exponent num
        | _, _ => none

/-- The function `convertStrToNum(str)` in `int` arithmetic: `none` when one of
its operations overflows. -/
def convertStrToNum32 (str : List Int) : Option Int :=
  convertStrToNumLoop32 str ((str.length : Int) - 1) 0

/-- The decimal value of a string of digits: the sum over the positions `i` of
`digit_i * 10 ^ (length - 1 - i)`. -/
def decimalValue : List Int → Int
  | [] => 0
  | c :: cs => (c - ord '0') * 10 ^ cs.length + decimalValue cs

/-! ## isValidTime with bounds-checked indexing -/

/-- The value `strlen(s)` for the characters `s` in memory: the position of the
first NUL, which is the terminator (the end of the list when it holds none). -/
def strlen (s : List Int) : Nat := (strOfArray s).length

/-- One test of the chain of `isValidTime` with bounds-checked indexing: the
positions `reads` are examined, which is the out-of-range failure `none` when
one of them lies past the terminator; otherwise the test `bad` returns `-1` or
lets the chain go on. -/
def checkedTest (time : List Int) (reads : List Nat) (bad : Prop) [Decidable bad]
    (rest : Option Int) : Option Int :=
  if reads.all (fun k => decide (k ≤ strlen time)) then
    if bad then some (-1) else rest
  else none

/-- The function `isValidTime` with bounds-checked indexing. The tests of
positions 6, 9 and 12 also name the position before, which the short-circuit
evaluation examines only sometimes; it is counted as examined every time. -/
def isValidTimeChecked (time : List Int) : Option Int :=
  checkedTest time [0] (charAt time 0 < ord '0' ∨ charAt time 0 > ord '9') <|
  checkedTest time [1] (charAt time 1 < ord '0' ∨ charAt time 1 > ord '9') <|
  checkedTest time [2] (charAt time 2 < ord '0' ∨ charAt time 2 > ord '9') <|
  checkedTest time [3] (charAt time 3 < ord '0' ∨ charAt time 3 > ord '9') <|
  checkedTest time [4] (charAt time 4 ≠ ord '-') <|
  checkedTest time [5] (charAt time 5 < ord '0' ∨ charAt time 5 > ord '1') <|
  checkedTest time [6, 5] (charAt time 6 < ord '0' ∨ charAt time 6 > ord '9'
      ∨ (charAt time 6 > ord '2' ∧ charAt time 5 = ord '1')) <|
  checkedTest time [7] (charAt time 7 ≠ ord '-') <|
  checkedTest time [8] (charAt time 8 < ord '0' ∨ charAt time 8 > ord '3') <|
  checkedTest time [9, 8] (charAt time 9 < ord '0' ∨ charAt time 9 > ord '9'
      ∨ (charAt time 9 > ord '1' ∧ charAt time 8 = ord '3')) <|
  checkedTest time [10] (charAt time 10 ≠ ord ' ') <|
  checkedTest time [11] (charAt time 11 < ord '0' ∨ charAt time 11 > ord '2') <|
  checkedTest time [12, 11] (charAt time 12 < ord '0' ∨ charAt time 12 > ord '9'
      ∨ (charAt time 12 > ord '3' ∧ charAt time 11 = ord '2')) <|
  checkedTest time [13] (charAt time 13 ≠ ord ':') <|
  checkedTest time [14] (charAt time 14 < ord '0' ∨ charAt time 14 > ord '5') <|
  checkedTest time [15] (charAt time 15 < ord '0' ∨ charAt time 15 > ord '9') <|
  checkedTest time [16] (charAt time 16 ≠ ord ':') <|
  checkedTest time [17] (charAt time 17 < ord '0' ∨ charAt time 17 > ord '5') <|
  checkedTest time [18] (charAt time 18 < ord '0' ∨ charAt time 18 > ord '9') <|
  some 1

/-! ## The buffers t1GTt2 writes to -/

/-- The memory `t1GTt2` works in: the character buffers, a pointer to the start
of a buffer being its index. -/
abbrev Heap := List (List Int)

/-- The calls `strtok(p, " ")` and `strtok(NULL, " ")` on the buffer `p`: the two
tokens and the memory after both calls, in which the buffer `p` holds what they
wrote. -/
def tokenise (heap : Heap) (p : Nat) : Option (Option Nat × Option Nat × Heap) :=
  match heap.get? p with
  | none => none
  | some buf =>
    match strtok buf 0 with
    | none => none
    | some (first, buf, save) =>
      match strtok buf save with
      | none => none
      | some (second, buf, _) => some (first, second, heap.set p buf)

/-- The function `t1GTt2(t1, t2)` on memory, `t1` and `t2` pointing to buffers
of `heap`: `malloc` gives `t2Copy` a new buffer, `strcpy` fills it with the
string of `t2` (a failure when `t2` holds no terminator or the copy does not
fit 48 bytes), `strtok` writes to `t1` and to `t2Copy`. The result is the return
value and the memory after the call. -/
def t1GTt2Heap (heap : Heap) (t1 t2 : Nat) : Option (Int × Heap) :=
  match heap.get? t2 with
  | none => none
  | some t2Buf =>
    if 0 ∉ t2Buf ∨ 48 < (strOfArray t2Buf).length + 1 then none
    else
      let t2Copy := heap.length
      match tokenise (heap ++ [strOfArray t2Buf ++ [0]]) t1 with
      | none => none
      | some (t1Cal, t1Time, heap) =>
        match tokenise heap t2Copy with
        | none => none
        | some (t2Cal, t2Time, heap) =>
          match heap.get? t1, heap.get? t2Copy, t1Cal, t1Time, t2Cal, t2Time with
          | some t1Buf, some t2Buf, some t1Cal, some t1Time, some t2Cal, some t2Time =>
            match convertCalToArr t1Buf t1Cal, convertTimeToArr t1Buf t1Time,
              convertCalToArr t2Buf t2Cal, convertTimeToArr t2Buf t2Time with
            | some t1CalArr, some t1TimeArr, some t2CalArr, some t2TimeArr =>
              some (t1GTt2Compare t1CalArr t1TimeArr t2CalArr t2TimeArr, heap)
            | _, _, _, _ => none
          | _, _, _, _, _, _ => none

/-- The call `t1GTt2(formatTimeStr(fileData.st_mtime), timeLimit)` of `readDir`:
`formatTimeStr` allocates the buffer of `t1` and fills it; `timeLimit` points to
a buffer of `heap`. -/
def readDirCall (heap : Heap) (timeLimit : Nat) (mtime : Tm) : Option (Int × Heap) :=
  t1GTt2Heap (heap ++ [formatTimeStr mtime ++ [0]]) heap.length timeLimit

/-! ## The elements of argv that commandLineSwitch reads -/

/-- The indices `j` of the elements `argv[j]` that one round of the loop of
`commandLineSwitch` reads at index `i`: `argv[i]`, and `argv[i+1]` when `argv[i]`
is `-t`. -/
def switchStepReads (argv : List (List Int)) (i : Nat) : List Nat :=
  match argAt argv i with
  | none => [i]
  | some arg =>
    if arg = cstr "-h" then [i]
    else if arg = cstr "-t" then [i, i + 1]
    else [i]

/-- The indices of the elements of `argv` that the loop of `commandLineSwitch`
reads from index `i` on and, when the loop runs to its end, the index
`sizeOfArgs - 1` that the call of `realpath` after it reads. -/
def switchLoopReads (fs : FileSystem) (argv : List (List Int)) (sizeOfArgs fuel i : Nat)
    (time : List Int) : List Nat :=
  if i < sizeOfArgs then
    match fuel with
    | 0 => []
    | fuel + 1 =>
      switchStepReads argv i ++
        match switchStep fs argv sizeOfArgs i time with
        | some (Flow.continues time) => switchLoopReads fs argv sizeOfArgs fuel (i + 1) time
        | _ => []
  else [sizeOfArgs - 1]

/-- The indices of the elements of `argv` that `commandLineSwitch` reads. -/
def commandLineSwitchReads (fs : FileSystem) (argv : List (List Int)) (sizeOfArgs : Nat) :
    List Nat :=
  switchLoopReads fs argv sizeOfArgs sizeOfArgs 1 (cstr "1970-01-01 00:00:00")

/-! ## Basic facts -/

@[simp] theorem ord_zero : ord '0' = 48 := rfl
@[simp] theorem ord_one : ord '1' = 49 := rfl
@[simp] theorem ord_two : ord '2' = 50 := rfl
@[simp] theorem ord_three : ord '3' = 51 := rfl
@[simp] theorem ord_five : ord '5' = 53 := rfl
@[simp] theorem ord_nine : ord '9' = 57 := rfl
@[simp] theorem ord_dash : ord '-' = 45 := rfl
@[simp] theorem ord_space : ord ' ' = 32 := rfl
@[simp] theorem ord_colon : ord ':' = 58 := rfl

/-- One link of a rejection chain keeps the answer among `1` and `-1`. -/
theorem ite_reject_cases (c : Prop) [Decidable c] (x : Int) (h : x = 1 ∨ x = -1) :
    (if c then (-1 : Int) else x) = 1 ∨ (if c then (-1 : Int) else x) = -1 := by
  by_cases hc : c
  · rw [if_pos hc]; exact Or.inr rfl
  · rw [if_neg hc]; exact h

/-- A rejection chain that answers `1` did not fire its first test. -/
theorem ite_reject_eq_one (c : Prop) [Decidable c] (x : Int)
    (h : (if c then (-1 : Int) else x) = 1) : ¬ c ∧ x = 1 := by
  by_cases hc : c
  · rw [if_pos hc] at h; exact absurd h (by decide)
  · rw [if_neg hc] at h; exact ⟨hc, h⟩

/-- The validator answers `1` or `-1`, nothing else. -/
theorem isValidTime_cases (s : List Int) : isValidTime s = 1 ∨ isValidTime s = -1 := by
  unfold isValidTime
  repeat apply ite_reject_cases
  exact Or.inl rfl

/-- A string that meets every layout rule is accepted. -/
theorem isValidTime_of_layoutRules (s : List Int) (h : layoutRules s) :
    isValidTime s = 1 := by
  unfold layoutRules isDecDigit at h
  simp only [ord_zero, ord_one, ord_two, ord_three, ord_five, ord_nine, ord_dash,
    ord_space, ord_colon] at h
  obtain ⟨h0, h1, h2, h3, h4, h5, h6, h7, h8, h9, h10, h11, h12, h13, h14, h15, h16,
    h17, h18⟩ := h
  unfold isValidTime
  simp only [ord_zero, ord_one, ord_two, ord_three, ord_five, ord_nine, ord_dash,
    ord_space, ord_colon]
  repeat rw [if_neg (by omega)]

/-- An accepted string meets every layout rule. -/
theorem layoutRules_of_isValidTime (s : List Int) (h : isValidTime s = 1) :
    layoutRules s := by
  unfold isValidTime at h
  simp only [ord_zero, ord_one, ord_two, ord_three, ord_five, ord_nine, ord_dash,
    ord_space, ord_colon] at h
  obtain ⟨h0, h⟩ := ite_reject_eq_one _ _ h
  obtain ⟨h1, h⟩ := ite_reject_eq_one _ _ h
  obtain ⟨h2, h⟩ := ite_reject_eq_one _ _ h
  obtain ⟨h3, h⟩ := ite_reject_eq_one _ _ h
  obtain ⟨h4, h⟩ := ite_reject_eq_one _ _ h
  obtain ⟨h5, h⟩ := ite_reject_eq_one _ _ h
  obtain ⟨h6, h⟩ := ite_reject_eq_one _ _ h
  obtain ⟨h7, h⟩ := ite_reject_eq_one _ _ h
  obtain ⟨h8, h⟩ := ite_reject_eq_one _ _ h
  obtain ⟨h9, h⟩ := ite_reject_eq_one _ _ h
  obtain ⟨h10, h⟩ := ite_reject_eq_one _ _ h
  obtain ⟨h11, h⟩ := ite_reject_eq_one _ _ h
  obtain ⟨h12, h⟩ := ite_reject_eq_one _ _ h
  obtain ⟨h13, h⟩ := ite_reject_eq_one _ _ h
  obtain ⟨h14, h⟩ := ite_reject_eq_one _ _ h
  obtain ⟨h15, h⟩ := ite_reject_eq_one _ _ h
  obtain ⟨h16, h⟩ := ite_reject_eq_one _ _ h
  obtain ⟨h17, h⟩ := ite_reject_eq_one _ _ h
  obtain ⟨h18, -⟩ := ite_reject_eq_one _ _ h
  unfold layoutRules isDecDigit
  simp only [ord_zero, ord_one, ord_two, ord_three, ord_five, ord_nine, ord_dash,
    ord_space, ord_colon]
  refine ⟨?_, ?_, ?_, ?_, ?_, ?_, ?_, ?_, ?_, ?_, ?_, ?_, ?_, ?_, ?_, ?_, ?_, ?_, ?_⟩
  all_goals omega

/-- The validator accepts exactly the strings that meet every layout rule. -/
theorem isValidTime_eq_one_iff (s : List Int) : isValidTime s = 1 ↔ layoutRules s :=
  ⟨layoutRules_of_isValidTime s, isValidTime_of_layoutRules s⟩

/-! ## The comparator in terms of the fields -/

/-- The comparator fails when `t2` does not fit the copy; otherwise it parses
both strings and compares the arrays. The order in which the source interleaves
the `strtok` calls and the conversions does not change the result. -/
theorem t1GTt2_eq (t1 t2 : List Int) :
    t1GTt2 t1 t2 = if 48 < t2.length + 1 then none else
      (stampFields t1).bind fun a => (stampFields t2).bind fun b =>
        some (t1GTt2Compare a.1 a.2 b.1 b.2) := by
  unfold t1GTt2 stampFields
  by_cases h : 48 < t2.length + 1
  · rw [if_pos h, if_pos h]
  · rw [if_neg h, if_neg h]
    simp only [Option.bind_eq_bind, Option.pure_def]
    generalize strtok (t1 ++ [0]) 0 = r1
    rcases r1 with _ | ⟨c1, b1, s1⟩
    · rfl
    simp only [Option.some_bind]
    generalize strtok b1 s1 = r2
    rcases r2 with _ | ⟨tm1, b1', s1'⟩
    · rfl
    simp only [Option.some_bind]
    generalize strtok (t2 ++ [0]) 0 = r3
    rcases r3 with _ | ⟨c2, b2, s2⟩
    · simp only [Option.none_bind, Option.bind_none]
    simp only [Option.some_bind]
    generalize strtok b2 s2 = r4
    rcases r4 with _ | ⟨tm2, b2', s2'⟩
    · simp only [Option.none_bind, Option.bind_none]
    simp only [Option.some_bind]
    rcases c1 with _ | c1
    · rfl
    simp only [Option.some_bind]
    generalize convertCalToArr b1' c1 = a1
    rcases a1 with _ | a1
    · rfl
    simp only [Option.some_bind]
    rcases tm1 with _ | tm1
    · rfl
    simp only [Option.some_bind]
    generalize convertTimeToArr b1' tm1 = a2
    rcases a2 with _ | a2
    · rfl
    simp only [Option.some_bind]
    rcases c2 with _ | c2
    · rfl
    simp only [Option.some_bind]
    generalize convertCalToArr b2' c2 = a3
    rcases a3 with _ | a3
    · rfl
    simp only [Option.some_bind]
    rcases tm2 with _ | tm2
    · rfl
    simp only [Option.some_bind]
    generalize convertTimeToArr b2' tm2 = a4
    rcases a4 with _ | a4
    · rfl
    rfl


/-! ## Lists and tokens -/

/-- At and past the end of the characters, `charAt` reads the terminator. -/
theorem charAt_eq_zero (s : List Int) (i : Nat) (h : s.length ≤ i) : charAt s i = 0 := by
  unfold charAt; exact List.getD_eq_default _ _ h

/-- A list of positive length has a head. -/
theorem exists_cons_of_succ_le (s : List Int) (n : Nat) (h : n + 1 ≤ s.length) :
    ∃ c r, s = c :: r ∧ n ≤ r.length := by
  cases s with
  | nil => simp at h
  | cons c r => exact ⟨c, r, rfl, by simpa using h⟩

/-- A list of at least nineteen elements starts with nineteen heads. -/
theorem exists_head19 (s : List Int) (h : 19 ≤ s.length) :
    ∃ c0 c1 c2 c3 c4 c5 c6 c7 c8 c9 c10 c11 c12 c13 c14 c15 c16 c17 c18 rest,
      s = c0 :: c1 :: c2 :: c3 :: c4 :: c5 :: c6 :: c7 :: c8 :: c9 :: c10 :: c11 :: c12 ::
        c13 :: c14 :: c15 :: c16 :: c17 :: c18 :: rest := by
  obtain ⟨c0, s, rfl, h0⟩ := exists_cons_of_succ_le s _ h
  obtain ⟨c1, s, rfl, h1⟩ := exists_cons_of_succ_le s _ h0
  obtain ⟨c2, s, rfl, h2⟩ := exists_cons_of_succ_le s _ h1
  obtain ⟨c3, s, rfl, h3⟩ := exists_cons_of_succ_le s _ h2
  obtain ⟨c4, s, rfl, h4⟩ := exists_cons_of_succ_le s _ h3
  obtain ⟨c5, s, rfl, h5⟩ := exists_cons_of_succ_le s _ h4
  obtain ⟨c6, s, rfl, h6⟩ := exists_cons_of_succ_le s _ h5
  obtain ⟨c7, s, rfl, h7⟩ := exists_cons_of_succ_le s _ h6
  obtain ⟨c8, s, rfl, h8⟩ := exists_cons_of_succ_le s _ h7
  obtain ⟨c9, s, rfl, h9⟩ := exists_cons_of_succ_le s _ h8
  obtain ⟨c10, s, rfl, h10⟩ := exists_cons_of_succ_le s _ h9
  obtain ⟨c11, s, rfl, h11⟩ := exists_cons_of_succ_le s _ h10
  obtain ⟨c12, s, rfl, h12⟩ := exists_cons_of_succ_le s _ h11
  obtain ⟨c13, s, rfl, h13⟩ := exists_cons_of_succ_le s _ h12
  obtain ⟨c14, s, rfl, h14⟩ := exists_cons_of_succ_le s _ h13
  obtain ⟨c15, s, rfl, h15⟩ := exists_cons_of_succ_le s _ h14
  obtain ⟨c16, s, rfl, h16⟩ := exists_cons_of_succ_le s _ h15
  obtain ⟨c17, s, rfl, h17⟩ := exists_cons_of_succ_le s _ h16
  obtain ⟨c18, s, rfl, h18⟩ := exists_cons_of_succ_le s _ h17
  exact ⟨c0, c1, c2, c3, c4, c5, c6, c7, c8, c9, c10, c11, c12, c13, c14, c15, c16, c17,
    c18, s, rfl⟩

/-- The scan for the end of a token stops inside a terminated buffer. -/
theorem strcspn_lt (rest : List Int) : strcspn (rest ++ [0]) < (rest ++ [0]).length := by
  induction rest with
  | nil => simp [strcspn]
  | cons c r ih =>
    unfold strcspn at ih ⊢
    simp only [List.cons_append, List.takeWhile_cons, List.length_cons]
    split
    · simp only [List.length_cons]; omega
    · simp

/-- The first `strtok` call on a terminated buffer that starts with ten token
characters and a space: the token is at offset 0, the space becomes NUL and the
scan resumes at offset 11. -/
theorem strtok_stamp (c0 c1 c2 c3 c4 c5 c6 c7 c8 c9 c11 c12 c13 c14 c15 c16 c17 c18 : Int)
    (rest : List Int)
    (h0 : c0 ≠ 32 ∧ c0 ≠ 0) (h1 : c1 ≠ 32 ∧ c1 ≠ 0) (h2 : c2 ≠ 32 ∧ c2 ≠ 0)
    (h3 : c3 ≠ 32 ∧ c3 ≠ 0) (h4 : c4 ≠ 32 ∧ c4 ≠ 0) (h5 : c5 ≠ 32 ∧ c5 ≠ 0)
    (h6 : c6 ≠ 32 ∧ c6 ≠ 0) (h7 : c7 ≠ 32 ∧ c7 ≠ 0) (h8 : c8 ≠ 32 ∧ c8 ≠ 0)
    (h9 : c9 ≠ 32 ∧ c9 ≠ 0) :
    strtok (c0 :: c1 :: c2 :: c3 :: c4 :: c5 :: c6 :: c7 :: c8 :: c9 :: 32 :: c11 :: c12 ::
        c13 :: c14 :: c15 :: c16 :: c17 :: c18 :: (rest ++ [0])) 0
      = some (some 0, c0 :: c1 :: c2 :: c3 :: c4 :: c5 :: c6 :: c7 :: c8 :: c9 :: 0 :: c11 ::
        c12 :: c13 :: c14 :: c15 :: c16 :: c17 :: c18 :: (rest ++ [0]), 11) := by
  simp [strtok, strspn, strcspn, readBuf, List.takeWhile_cons, h0, h1, h2, h3, h4, h5, h6, h7, h8, h9]

/-- A token character extends the token by one. -/
theorem strcspn_cons_token (c : Int) (tail : List Int) (h : c ≠ 32 ∧ c ≠ 0) :
    strcspn (c :: tail) = strcspn tail + 1 := by
  simp [strcspn, List.takeWhile_cons, h]

/-- No space is skipped in front of a token character. -/
theorem strspn_cons_token (c : Int) (tail : List Int) (h : c ≠ 32 ∧ c ≠ 0) :
    strspn (c :: tail) = 0 := by
  simp [strspn, List.takeWhile_cons, h]

/-- The second `strtok` call: the token is at offset 11 and the first nineteen
characters of the buffer are left as they are. -/
theorem strtok_stamp2 (c0 c1 c2 c3 c4 c5 c6 c7 c8 c9 c11 c12 c13 c14 c15 c16 c17 c18 : Int)
    (rest : List Int)
    (h11 : c11 ≠ 32 ∧ c11 ≠ 0) (h12 : c12 ≠ 32 ∧ c12 ≠ 0)
    (h13 : c13 ≠ 32 ∧ c13 ≠ 0) (h14 : c14 ≠ 32 ∧ c14 ≠ 0) (h15 : c15 ≠ 32 ∧ c15 ≠ 0)
    (h16 : c16 ≠ 32 ∧ c16 ≠ 0) (h17 : c17 ≠ 32 ∧ c17 ≠ 0) (h18 : c18 ≠ 32 ∧ c18 ≠ 0) :
    ∃ tail save, strtok (c0 :: c1 :: c2 :: c3 :: c4 :: c5 :: c6 :: c7 :: c8 :: c9 :: 0 :: c11 :: c12 ::
        c13 :: c14 :: c15 :: c16 :: c17 :: c18 :: (rest ++ [0])) 11
      = some (some 11, c0 :: c1 :: c2 :: c3 :: c4 :: c5 :: c6 :: c7 :: c8 :: c9 :: 0 :: c11 ::
        c12 :: c13 :: c14 :: c15 :: c16 :: c17 :: c18 :: tail, save) := by
  have hk := strcspn_lt rest
  generalize rest ++ [0] = tail at hk
  unfold strtok
  simp only [List.drop_succ_cons, List.drop_zero, strspn_cons_token _ _ h11,
    strcspn_cons_token _ _ h11, strcspn_cons_token _ _ h12, strcspn_cons_token _ _ h13,
    strcspn_cons_token _ _ h14, strcspn_cons_token _ _ h15, strcspn_cons_token _ _ h16,
    strcspn_cons_token _ _ h17, strcspn_cons_token _ _ h18, Nat.add_zero, readBuf]
  generalize strcspn tail = k at hk
  have hidx : 11 + (k + 1 + 1 + 1 + 1 + 1 + 1 + 1 + 1) = k + 19 := by omega
  rw [hidx]
  simp only [List.get?_cons_succ, List.get?_cons_zero, Option.bind_eq_bind, Option.some_bind,
    if_neg h11.2, Option.pure_def]
  rw [List.get?_eq_get hk]
  simp only [Option.some_bind]
  by_cases hd : tail.get ⟨k, hk⟩ = 0
  · rw [if_pos hd]; exact ⟨tail, _, rfl⟩
  · rw [if_neg hd]; exact ⟨tail.set k 0, k + 19 + 1, by simp only [List.set_cons_succ]⟩

/-- The powers of ten the conversions use. -/
theorem toPower_ten_one : toPower 10 1 = 10 := by decide
theorem toPower_ten_two : toPower 10 2 = 100 := by decide
theorem toPower_ten_three : toPower 10 3 = 1000 := by decide

/-- The conversion of a one-character string. -/
theorem convertStrToNum_one (a : Int) : convertStrToNum [a] = a - 48 := by
  simp [convertStrToNum, convertStrToNumLoop]

/-- The conversion of a two-character string. -/
theorem convertStrToNum_two (a b : Int) :
    convertStrToNum [a, b] = (a - 48) * 10 + (b - 48) := by
  simp [convertStrToNum, convertStrToNumLoop, toPower_ten_one]

/-- The conversion of a four-character string. -/
theorem convertStrToNum_four (a b c d : Int) :
    convertStrToNum [a, b, c, d] = (a - 48) * 1000 + (b - 48) * 100 + (c - 48) * 10 + (d - 48) := by
  simp [convertStrToNum, convertStrToNumLoop, toPower_ten_one, toPower_ten_two, toPower_ten_three]

/-- A two-character array without NUL holds a two-character string. -/
theorem strOfArray_two (a b : Int) (ha : a ≠ 0) (hb : b ≠ 0) : strOfArray [a, b, 0] = [a, b] := by
  simp [strOfArray, List.takeWhile_cons, ha, hb]

/-- A four-character array without NUL holds a four-character string. -/
theorem strOfArray_four (a b c d : Int) (ha : a ≠ 0) (hb : b ≠ 0) (hc : c ≠ 0) (hd : d ≠ 0) :
    strOfArray [a, b, c, d, 0] = [a, b, c, d] := by
  simp [strOfArray, List.takeWhile_cons, ha, hb, hc, hd]

/-- The fields read from a string of ten token characters, a space, eight token
characters and anything after them. -/
theorem stampFields_shape (c0 c1 c2 c3 c4 c5 c6 c7 c8 c9 c11 c12 c13 c14 c15 c16 c17 c18 : Int)
    (rest : List Int)
    (h0 : c0 ≠ 32 ∧ c0 ≠ 0) (h1 : c1 ≠ 32 ∧ c1 ≠ 0) (h2 : c2 ≠ 32 ∧ c2 ≠ 0)
    (h3 : c3 ≠ 32 ∧ c3 ≠ 0) (h4 : c4 ≠ 32 ∧ c4 ≠ 0) (h5 : c5 ≠ 32 ∧ c5 ≠ 0)
    (h6 : c6 ≠ 32 ∧ c6 ≠ 0) (h7 : c7 ≠ 32 ∧ c7 ≠ 0) (h8 : c8 ≠ 32 ∧ c8 ≠ 0)
    (h9 : c9 ≠ 32 ∧ c9 ≠ 0) (h11 : c11 ≠ 32 ∧ c11 ≠ 0) (h12 : c12 ≠ 32 ∧ c12 ≠ 0)
    (h13 : c13 ≠ 32 ∧ c13 ≠ 0) (h14 : c14 ≠ 32 ∧ c14 ≠ 0) (h15 : c15 ≠ 32 ∧ c15 ≠ 0)
    (h16 : c16 ≠ 32 ∧ c16 ≠ 0) (h17 : c17 ≠ 32 ∧ c17 ≠ 0) (h18 : c18 ≠ 32 ∧ c18 ≠ 0) :
    stampFields (c0 :: c1 :: c2 :: c3 :: c4 :: c5 :: c6 :: c7 :: c8 :: c9 :: 32 :: c11 :: c12 ::
        c13 :: c14 :: c15 :: c16 :: c17 :: c18 :: rest)
      = some ((convertStrToNum [c0, c1, c2, c3], convertStrToNum [c5, c6],
          convertStrToNum [c8, c9]),
        (convertStrToNum [c11, c12], convertStrToNum [c14, c15], convertStrToNum [c17, c18])) := by
  obtain ⟨tail, save, hs⟩ := strtok_stamp2 c0 c1 c2 c3 c4 c5 c6 c7 c8 c9 c11 c12 c13 c14 c15
    c16 c17 c18 rest h11 h12 h13 h14 h15 h16 h17 h18
  unfold stampFields
  simp only [List.cons_append]
  rw [strtok_stamp c0 c1 c2 c3 c4 c5 c6 c7 c8 c9 c11 c12 c13 c14 c15 c16 c17 c18 rest
    h0 h1 h2 h3 h4 h5 h6 h7 h8 h9]
  simp only [Option.bind_eq_bind, Option.some_bind, hs, Option.pure_def]
  simp only [convertCalToArr, convertTimeToArr, readBuf, List.get?_cons_succ,
    List.get?_cons_zero, Option.bind_eq_bind, Option.some_bind, Option.pure_def, Nat.zero_add,
    Nat.reduceAdd,
    strOfArray_two _ _ h5.2 h6.2, strOfArray_two _ _ h8.2 h9.2, strOfArray_two _ _ h11.2 h12.2,
    strOfArray_two _ _ h14.2 h15.2, strOfArray_two _ _ h17.2 h18.2,
    strOfArray_four _ _ _ _ h0.2 h1.2 h2.2 h3.2]

/-! ## Formatting -/

/-- The character of a decimal digit. -/
theorem ord_digitChar (d : Nat) (h : d < 10) : ord (Nat.digitChar d) = 48 + (d : Int) := by
  interval_cases d <;> rfl

/-- The decimal digits of a number below 10. -/
theorem toDigits_lt_ten (n : Nat) (h : n < 10) : Nat.toDigits 10 n = [Nat.digitChar n] := by
  have h1 : n / 10 = 0 := by omega
  have h2 : n % 10 = n := by omega
  simp [Nat.toDigits, Nat.toDigitsCore, h1, h2]

/-- The decimal digits of a number in 10..99. -/
theorem toDigits_two (n : Nat) (h1 : 10 ≤ n) (h2 : n < 100) :
    Nat.toDigits 10 n = [Nat.digitChar (n / 10), Nat.digitChar (n % 10)] := by
  have hf : n + 1 = (n - 1) + 1 + 1 := by omega
  have e1 : ¬ n / 10 = 0 := by omega
  have e2 : n / 10 / 10 = 0 := by omega
  have e3 : n / 10 % 10 = n / 10 := by omega
  rw [Nat.toDigits, hf]
  simp only [Nat.toDigitsCore, e1, e2, e3, if_true, if_false]

/-- The decimal digits of a number in 1000..9999. -/
theorem toDigits_four (n : Nat) (h1 : 1000 ≤ n) (h2 : n < 10000) :
    Nat.toDigits 10 n = [Nat.digitChar (n / 1000), Nat.digitChar (n / 100 % 10),
      Nat.digitChar (n / 10 % 10), Nat.digitChar (n % 10)] := by
  have hf : n + 1 = (n - 3) + 1 + 1 + 1 + 1 := by omega
  have e1 : ¬ n / 10 = 0 := by omega
  have e2 : ¬ n / 10 / 10 = 0 := by omega
  have e3 : ¬ n / 10 / 10 / 10 = 0 := by omega
  have e4 : n / 10 / 10 / 10 / 10 = 0 := by omega
  have e5 : n / 10 / 10 / 10 % 10 = n / 1000 := by omega
  have e6 : n / 10 / 10 % 10 = n / 100 % 10 := by omega
  rw [Nat.toDigits, hf]
  simp only [Nat.toDigitsCore, e1, e2, e3, e4, e5, e6, if_true, if_false]

/-- The conversion `%d` of a value in 0..9. -/
theorem fmtD_one (v : Int) (h0 : 0 ≤ v) (h1 : v < 10) : fmtD v = [48 + v] := by
  obtain ⟨n, rfl⟩ := Int.eq_ofNat_of_zero_le h0
  have hn : n < 10 := by omega
  simp [fmtD, toDigits_lt_ten n hn, ord_digitChar n hn]

/-- The conversion `%d` of a value in 10..99. -/
theorem fmtD_two (v : Int) (h0 : 10 ≤ v) (h1 : v < 100) :
    fmtD v = [48 + v / 10, 48 + v % 10] := by
  obtain ⟨n, rfl⟩ := Int.eq_ofNat_of_zero_le (by omega : 0 ≤ v)
  have hn : n < 100 := by omega
  have hn0 : 10 ≤ n := by omega
  simp [fmtD, toDigits_two n hn0 hn, ord_digitChar (n / 10) (by omega),
    ord_digitChar (n % 10) (by omega)]

/-- The conversion `%d` of a value in 1000..9999. -/
theorem fmtD_four (v : Int) (h0 : 1000 ≤ v) (h1 : v < 10000) :
    fmtD v = [48 + v / 1000, 48 + v / 100 % 10, 48 + v / 10 % 10, 48 + v % 10] := by
  obtain ⟨n, rfl⟩ := Int.eq_ofNat_of_zero_le (by omega : 0 ≤ v)
  have hn : n < 10000 := by omega
  have hn0 : 1000 ≤ n := by omega
  simp [fmtD, toDigits_four n hn0 hn, ord_digitChar (n / 1000) (by omega),
    ord_digitChar (n / 100 % 10) (by omega), ord_digitChar (n / 10 % 10) (by omega),
    ord_digitChar (n % 10) (by omega)]

/-- The conversion `%02d` of a value in 0..99: two digits. -/
theorem fmt02D_eq (v : Int) (h0 : 0 ≤ v) (h1 : v < 100) :
    fmt02D v = [48 + v / 10, 48 + v % 10] := by
  by_cases h : v < 10
  · have e1 : v / 10 = 0 := by omega
    have e2 : v % 10 = v := by omega
    simp [fmt02D, fmtD_one v h0 h, e1, e2]
  · simp [fmt02D, fmtD_two v (by omega) h1]

/-- The fields read from a string of ten token characters, a space and seven
token characters (a one-digit second): the seconds array holds the digit and the
terminator. -/
theorem stampFields_shape18 (c0 c1 c2 c3 c4 c5 c6 c7 c8 c9 c11 c12 c13 c14 c15 c16 c17 : Int)
    (h0 : c0 ≠ 32 ∧ c0 ≠ 0) (h1 : c1 ≠ 32 ∧ c1 ≠ 0) (h2 : c2 ≠ 32 ∧ c2 ≠ 0)
    (h3 : c3 ≠ 32 ∧ c3 ≠ 0) (h4 : c4 ≠ 32 ∧ c4 ≠ 0) (h5 : c5 ≠ 32 ∧ c5 ≠ 0)
    (h6 : c6 ≠ 32 ∧ c6 ≠ 0) (h7 : c7 ≠ 32 ∧ c7 ≠ 0) (h8 : c8 ≠ 32 ∧ c8 ≠ 0)
    (h9 : c9 ≠ 32 ∧ c9 ≠ 0) (h11 : c11 ≠ 32 ∧ c11 ≠ 0) (h12 : c12 ≠ 32 ∧ c12 ≠ 0)
    (h13 : c13 ≠ 32 ∧ c13 ≠ 0) (h14 : c14 ≠ 32 ∧ c14 ≠ 0) (h15 : c15 ≠ 32 ∧ c15 ≠ 0)
    (h16 : c16 ≠ 32 ∧ c16 ≠ 0) (h17 : c17 ≠ 32 ∧ c17 ≠ 0) :
    stampFields [c0, c1, c2, c3, c4, c5, c6, c7, c8, c9, 32, c11, c12, c13, c14, c15, c16, c17]
      = some ((convertStrToNum [c0, c1, c2, c3], convertStrToNum [c5, c6],
          convertStrToNum [c8, c9]),
        (convertStrToNum [c11, c12], convertStrToNum [c14, c15], convertStrToNum [c17])) := by
  have hs1 : strtok [c0, c1, c2, c3, c4, c5, c6, c7, c8, c9, 32, c11, c12, c13, c14, c15, c16,
      c17, 0] 0 = some (some 0, [c0, c1, c2, c3, c4, c5, c6, c7, c8, c9, 0, c11, c12, c13, c14,
      c15, c16, c17, 0], 11) := by
    simp [strtok, strspn, strcspn, readBuf, List.takeWhile_cons, h0, h1, h2, h3, h4, h5, h6,
      h7, h8, h9]
  have hs2 : strtok [c0, c1, c2, c3, c4, c5, c6, c7, c8, c9, 0, c11, c12, c13, c14, c15, c16,
      c17, 0] 11 = some (some 11, [c0, c1, c2, c3, c4, c5, c6, c7, c8, c9, 0, c11, c12, c13, c14,
      c15, c16, c17, 0], 18) := by
    simp [strtok, strspn, strcspn, readBuf, List.takeWhile_cons, h11, h12, h13, h14, h15, h16,
      h17]
  have hsec : strOfArray [c17, 0, 0] = [c17] := by
    simp [strOfArray, List.takeWhile_cons, h17.2]
  unfold stampFields
  simp only [List.cons_append, List.nil_append]
  rw [hs1]
  simp only [Option.bind_eq_bind, Option.some_bind, hs2, Option.pure_def]
  simp only [convertCalToArr, convertTimeToArr, readBuf, List.get?_cons_succ,
    List.get?_cons_zero, Option.bind_eq_bind, Option.some_bind, Option.pure_def, Nat.zero_add,
    Nat.reduceAdd, hsec,
    strOfArray_two _ _ h5.2 h6.2, strOfArray_two _ _ h8.2 h9.2, strOfArray_two _ _ h11.2 h12.2,
    strOfArray_two _ _ h14.2 h15.2,
    strOfArray_four _ _ _ _ h0.2 h1.2 h2.2 h3.2]

/-- The fields read from the formatted modification time are the fields of the
modification time, for a four-digit year and a second of one or two digits. -/
theorem stampFields_formatTimeStr (t : Tm) (h : tmInRange t) :
    stampFields (formatTimeStr t) = some (tmFields t) := by
  obtain ⟨⟨hy0, hy1⟩, ⟨hm0, hm1⟩, ⟨hd0, hd1⟩, ⟨hh0, hh1⟩, ⟨hi0, hi1⟩, ⟨hs0, hs1⟩⟩ := h
  unfold formatTimeStr tmFields
  rw [fmtD_four _ hy0 (by omega), fmt02D_eq _ (by omega) (by omega),
    fmt02D_eq t.tm_mday (by omega) (by omega), fmt02D_eq t.tm_hour (by omega) (by omega),
    fmt02D_eq t.tm_min (by omega) (by omega)]
  generalize t.tm_year + 1900 = y at hy0 hy1 ⊢
  generalize t.tm_mon + 1 = m at hm0 hm1 ⊢
  generalize t.tm_mday = d at hd0 hd1 ⊢
  generalize t.tm_hour = hh at hh0 hh1 ⊢
  generalize t.tm_min = mi at hi0 hi1 ⊢
  generalize t.tm_sec = se at hs0 hs1 ⊢
  by_cases hlt : se < 10
  · rw [fmtD_one _ hs0 hlt]
    simp only [ord_dash, ord_space, ord_colon, List.cons_append, List.nil_append, TIME_SIZE,
      List.take_succ_cons, List.take_nil, Nat.reduceSub]
    rw [stampFields_shape18 _ _ _ _ _ _ _ _ _ _ _ _ _ _ _ _ _ (by omega) (by omega) (by omega)
      (by omega) (by omega) (by omega) (by omega) (by omega) (by omega) (by omega) (by omega)
      (by omega) (by omega) (by omega) (by omega) (by omega) (by omega)]
    rw [convertStrToNum_four, convertStrToNum_two, convertStrToNum_two, convertStrToNum_two,
      convertStrToNum_two, convertStrToNum_one]
    simp only [Option.some.injEq, Prod.mk.injEq]
    refine ⟨⟨?_, ?_, ?_⟩, ?_, ?_, ?_⟩ <;> omega
  · rw [fmtD_two _ (by omega) (by omega)]
    simp only [ord_dash, ord_space, ord_colon, List.cons_append, List.nil_append, TIME_SIZE,
      List.take_succ_cons, List.take_nil, Nat.reduceSub]
    rw [stampFields_shape _ _ _ _ _ _ _ _ _ _ _ _ _ _ _ _ _ _ [] (by omega) (by omega) (by omega)
      (by omega) (by omega) (by omega) (by omega) (by omega) (by omega) (by omega) (by omega)
      (by omega) (by omega) (by omega) (by omega) (by omega) (by omega) (by omega)]
    rw [convertStrToNum_four, convertStrToNum_two, convertStrToNum_two, convertStrToNum_two,
      convertStrToNum_two, convertStrToNum_two]
    simp only [Option.some.injEq, Prod.mk.injEq]
    refine ⟨⟨?_, ?_, ?_⟩, ?_, ?_, ?_⟩ <;> omega

/-! ## Accepted strings and the comparison -/

/-- An accepted string holds at least the nineteen characters of the layout. -/
theorem length_of_isValidTime (s : List Int) (h : isValidTime s = 1) : 19 ≤ s.length := by
  have hl := layoutRules_of_isValidTime s h
  by_contra hlt
  have hz := charAt_eq_zero s 18 (by omega)
  unfold layoutRules isDecDigit at hl
  simp only [ord_zero, ord_nine] at hl
  have h18 := hl.2.2.2.2.2.2.2.2.2.2.2.2.2.2.2.2.2.2
  omega

/-- The fields the comparator obtains from an accepted string are the
place-value reading of its digit positions. -/
theorem stampFields_of_valid (s : List Int) (h : isValidTime s = 1) :
    stampFields s = some (digitFields s) := by
  have hl := layoutRules_of_isValidTime s h
  obtain ⟨c0, c1, c2, c3, c4, c5, c6, c7, c8, c9, c10, c11, c12, c13, c14, c15, c16, c17, c18,
    rest, rfl⟩ := exists_head19 s (length_of_isValidTime s h)
  unfold layoutRules isDecDigit at hl
  unfold digitFields
  simp only [charAt, List.getD_cons_succ, List.getD_cons_zero, ord_zero, ord_one, ord_two,
    ord_three, ord_five, ord_nine, ord_dash, ord_space, ord_colon] at hl ⊢
  obtain ⟨h0, h1, h2, h3, h4, h5, h6, h7, h8, h9, h10, h11, h12, h13, h14, h15, h16,
    h17, h18⟩ := hl
  subst h10
  rw [stampFields_shape _ _ _ _ _ _ _ _ _ _ _ _ _ _ _ _ _ _ rest (by omega) (by omega) (by omega)
      (by omega) (by omega) (by omega) (by omega) (by omega) (by omega) (by omega) (by omega)
      (by omega) (by omega) (by omega) (by omega) (by omega) (by omega) (by omega)]
  rw [convertStrToNum_four, convertStrToNum_two, convertStrToNum_two, convertStrToNum_two,
      convertStrToNum_two, convertStrToNum_two]

/-- The ranges of the fields read from an accepted string. -/
theorem digitFields_bounds (s : List Int) (h : isValidTime s = 1) :
    (0 ≤ (digitFields s).1.1 ∧ (digitFields s).1.1 ≤ 9999) ∧
    (0 ≤ (digitFields s).1.2.1 ∧ (digitFields s).1.2.1 ≤ 12) ∧
    (0 ≤ (digitFields s).1.2.2 ∧ (digitFields s).1.2.2 ≤ 31) ∧
    (0 ≤ (digitFields s).2.1 ∧ (digitFields s).2.1 ≤ 23) ∧
    (0 ≤ (digitFields s).2.2.1 ∧ (digitFields s).2.2.1 ≤ 59) ∧
    (0 ≤ (digitFields s).2.2.2 ∧ (digitFields s).2.2.2 ≤ 59) := by
  have hl := layoutRules_of_isValidTime s h
  unfold layoutRules isDecDigit at hl
  simp only [ord_zero, ord_one, ord_two, ord_three, ord_five, ord_nine, ord_dash, ord_space,
    ord_colon] at hl
  obtain ⟨h0, h1, h2, h3, h4, h5, h6, h7, h8, h9, h10, h11, h12, h13, h14, h15, h16,
    h17, h18⟩ := hl
  unfold digitFields
  simp only
  refine ⟨⟨?_, ?_⟩, ⟨?_, ?_⟩, ⟨?_, ?_⟩, ⟨?_, ?_⟩, ⟨?_, ?_⟩, ⟨?_, ?_⟩⟩ <;> omega

/-- The comparator on two strings whose fields are known. -/
theorem t1GTt2_of_fields (t1 t2 : List Int) (a b : Fields) (hlen : t2.length < 48)
    (ha : stampFields t1 = some a) (hb : stampFields t2 = some b) :
    t1GTt2 t1 t2 = some (t1GTt2Compare a.1 a.2 b.1 b.2) := by
  rw [t1GTt2_eq, if_neg (by omega), ha, hb]
  rfl

/-- The comparison answers `1` whenever the first tuple is after the second. -/
theorem t1GTt2Compare_of_isAfter (a b : Fields) (h : isAfter a b) :
    t1GTt2Compare a.1 a.2 b.1 b.2 = 1 := by
  unfold isAfter at h
  unfold t1GTt2Compare
  split_ifs <;> omega

/-- The comparison answers `0` on equal tuples. -/
theorem t1GTt2Compare_self (a : Fields) : t1GTt2Compare a.1 a.2 a.1 a.2 = 0 := by
  unfold t1GTt2Compare
  split_ifs <;> omega

/-- The comparison answers `1` or `0`. -/
theorem t1GTt2Compare_cases (a b c d : Int × Int × Int) :
    t1GTt2Compare a b c d = 1 ∨ t1GTt2Compare a b c d = 0 := by
  unfold t1GTt2Compare
  split_ifs <;> simp

/-- A string shorter than the layout is rejected. -/
theorem isValidTime_short (s : List Int) (h : s.length < 19) : isValidTime s = -1 := by
  rcases isValidTime_cases s with h1 | h1
  · have := length_of_isValidTime s h1
    omega
  · exact h1

/-! ## The claims -/

/-- C1 (divergence). The validated strings `2024-01-31 00:00:00` and
`2024-02-01 00:00:00` have the field tuples (2024, 1, 31, 0, 0, 0) and
(2024, 2, 1, 0, 0, 0); the first is not after the second in lexicographic
order, yet `t1GTt2` returns 1 on them. -/
theorem t1GTt2_not_lexicographic :
    (cstr "2024-01-31 00:00:00").length = 19 ∧ (cstr "2024-02-01 00:00:00").length = 19 ∧
    isValidTime (cstr "2024-01-31 00:00:00") = 1 ∧
    isValidTime (cstr "2024-02-01 00:00:00") = 1 ∧
    stampFields (cstr "2024-01-31 00:00:00") = some ((2024, 1, 31), (0, 0, 0)) ∧
    stampFields (cstr "2024-02-01 00:00:00") = some ((2024, 2, 1), (0, 0, 0)) ∧
    ¬ isAfter ((2024, 1, 31), (0, 0, 0)) ((2024, 2, 1), (0, 0, 0)) ∧
    t1GTt2 (cstr "2024-01-31 00:00:00") (cstr "2024-02-01 00:00:00") = some 1 := by
  decide

/-- For accepted timestamp strings `A` and `B`, `B` fitting the 48-byte copy
that `t1GTt2` makes of it, whose six fields are all equal, `t1GTt2 A B` returns
0; and the test of `readDir` does not forward an entry whose modification time,
of a four-digit year, has exactly the fields of the threshold `B`. -/
theorem t1GTt2_equal_fields (A B : List Int) (hA : isValidTime A = 1)
    (hB : isValidTime B = 1) (hlen : B.length < 48) (heq : stampFields A = stampFields B) :
    t1GTt2 A B = some 0 ∧
    ∀ t : Tm, tmInRange t → stampFields B = some (tmFields t) →
      readDirTest t B = some false := by
  have hfB := stampFields_of_valid B hB
  have hfA := stampFields_of_valid A hA
  constructor
  · rw [t1GTt2_of_fields A B _ _ hlen (heq ▸ hfB) hfB, t1GTt2Compare_self]
  · intro t ht hteq
    unfold readDirTest
    rw [t1GTt2_of_fields _ B _ _ hlen (stampFields_formatTimeStr t ht) hteq, t1GTt2Compare_self]
    rfl

/-- Equal fields at `2024-01-09 04:03:05` for both strings and for the
modification time. -/
theorem t1GTt2_equal_fields_witness :
    isValidTime (cstr "2024-01-09 04:03:05") = 1 ∧
    (cstr "2024-01-09 04:03:05").length < 48 ∧
    t1GTt2 (cstr "2024-01-09 04:03:05") (cstr "2024-01-09 04:03:05") = some 0 ∧
    readDirTest ⟨5, 3, 4, 9, 0, 124⟩ (cstr "2024-01-09 04:03:05") = some false :=
  ⟨by decide, by decide,
    (t1GTt2_equal_fields (cstr "2024-01-09 04:03:05") (cstr "2024-01-09 04:03:05")
      (by decide) (by decide) (by decide) rfl).1,
    (t1GTt2_equal_fields (cstr "2024-01-09 04:03:05") (cstr "2024-01-09 04:03:05")
      (by decide) (by decide) (by decide) rfl).2 ⟨5, 3, 4, 9, 0, 124⟩ (by decide) (by decide)⟩

/-- C2 (divergence). A file modified at 0999-01-01 00:00:00 and the accepted
threshold `0999-01-01 00:00:00` have the same six fields, but `formatTimeStr`
prints the year as `999`, the fixed offsets of `convertCalToArr` then read the
year 9987, and the test of `readDir` forwards the entry. An accepted threshold of
80 characters with the fields of `2024-01-09 04:03:05` does not fit the 48 bytes
of `t2Copy`, and `t1GTt2` on it and itself does not return 0. -/
theorem readDir_forwards_equal :
    isValidTime (cstr "0999-01-01 00:00:00") = 1 ∧
    stampFields (cstr "0999-01-01 00:00:00") = some ((999, 1, 1), (0, 0, 0)) ∧
    tmFields ⟨0, 0, 0, 1, 0, -901⟩ = ((999, 1, 1), (0, 0, 0)) ∧
    formatTimeStr ⟨0, 0, 0, 1, 0, -901⟩ = cstr "999-01-01 00:00:0" ∧
    stampFields (formatTimeStr ⟨0, 0, 0, 1, 0, -901⟩) = some ((9987, 7, 1), (0, 0, 0)) ∧
    t1GTt2 (formatTimeStr ⟨0, 0, 0, 1, 0, -901⟩) (cstr "0999-01-01 00:00:00") = some 1 ∧
    readDirTest ⟨0, 0, 0, 1, 0, -901⟩ (cstr "0999-01-01 00:00:00") = some true ∧
    isValidTime (cstr "2024-01-09 04:03:05" ++ List.replicate 61 (ord 'x')) = 1 ∧
    stampFields (cstr "2024-01-09 04:03:05" ++ List.replicate 61 (ord 'x'))
      = some ((2024, 1, 9), (4, 3, 5)) ∧
    (cstr "2024-01-09 04:03:05" ++ List.replicate 61 (ord 'x')).length = 80 ∧
    t1GTt2 (cstr "2024-01-09 04:03:05" ++ List.replicate 61 (ord 'x'))
      (cstr "2024-01-09 04:03:05" ++ List.replicate 61 (ord 'x')) = none := by
  decide

/-- C3. For an entry modification time `t` with year 1000..9999, month 1..12,
day 1..31, hour 0..23, minute 0..59, second 0..59 and an accepted threshold
string `B` (fitting the 48-byte copy, as every 19-character string does): if
the entry's fields are strictly after the threshold's in (year, month, day,
hour, minute, second) order, the test of `readDir` succeeds, that is
`t1GTt2 (formatTimeStr t) B` returns 1 and the entry is forwarded. -/
theorem readDir_forwards_after (t : Tm) (B : List Int) (ht : tmInRange t)
    (hB : isValidTime B = 1) (hlen : B.length < 48)
    (hafter : ∀ fb, stampFields B = some fb → isAfter (tmFields t) fb) :
    t1GTt2 (formatTimeStr t) B = some 1 ∧ readDirTest t B = some true := by
  have hfB := stampFields_of_valid B hB
  have h1 : t1GTt2 (formatTimeStr t) B = some 1 := by
    rw [t1GTt2_of_fields _ B _ _ hlen (stampFields_formatTimeStr t ht) hfB,
      t1GTt2Compare_of_isAfter _ _ (hafter _ hfB)]
  refine ⟨h1, ?_⟩
  unfold readDirTest
  rw [h1]
  rfl

/-- C3 at the modification time 2024-01-09 04:03:05 and the threshold
`2024-01-08 23:59:59`. -/
theorem readDir_forwards_after_witness :
    tmInRange ⟨5, 3, 4, 9, 0, 124⟩ ∧ isValidTime (cstr "2024-01-08 23:59:59") = 1 ∧
    (cstr "2024-01-08 23:59:59").length = 19 ∧
    stampFields (cstr "2024-01-08 23:59:59") = some ((2024, 1, 8), (23, 59, 59)) ∧
    isAfter (tmFields ⟨5, 3, 4, 9, 0, 124⟩) ((2024, 1, 8), (23, 59, 59)) ∧
    t1GTt2 (formatTimeStr ⟨5, 3, 4, 9, 0, 124⟩) (cstr "2024-01-08 23:59:59") = some 1 ∧
    readDirTest ⟨5, 3, 4, 9, 0, 124⟩ (cstr "2024-01-08 23:59:59") = some true :=
  ⟨by decide, by decide, by decide, by decide, by decide,
    readDir_forwards_after ⟨5, 3, 4, 9, 0, 124⟩ (cstr "2024-01-08 23:59:59") (by decide)
      (by decide) (by decide)
      (fun fb hfb => by
        have e : fb = ((2024, 1, 8), (23, 59, 59)) :=
          (Option.some.inj ((by decide : stampFields (cstr "2024-01-08 23:59:59")
            = some ((2024, 1, 8), (23, 59, 59))).symm.trans hfb)).symm
        rw [e]; decide)⟩

/-- C4 (divergence). On the validated strings `2024-01-31 00:00:00` and
`2024-02-01 00:00:00`, whose fields differ, `t1GTt2` returns 1 in both
directions. -/
theorem t1GTt2_not_antisymmetric :
    isValidTime (cstr "2024-01-31 00:00:00") = 1 ∧
    isValidTime (cstr "2024-02-01 00:00:00") = 1 ∧
    t1GTt2 (cstr "2024-01-31 00:00:00") (cstr "2024-02-01 00:00:00") = some 1 ∧
    t1GTt2 (cstr "2024-02-01 00:00:00") (cstr "2024-01-31 00:00:00") = some 1 := by
  decide

/-- C5 (divergence). On the validated strings `2024-01-02 00:00:00`,
`2024-02-01 00:00:00` and `2024-01-05 00:00:00`, `t1GTt2` returns 1 on the
first and second, 1 on the second and third, and 0 on the first and third. -/
theorem t1GTt2_not_transitive :
    isValidTime (cstr "2024-01-02 00:00:00") = 1 ∧
    isValidTime (cstr "2024-02-01 00:00:00") = 1 ∧
    isValidTime (cstr "2024-01-05 00:00:00") = 1 ∧
    t1GTt2 (cstr "2024-01-02 00:00:00") (cstr "2024-02-01 00:00:00") = some 1 ∧
    t1GTt2 (cstr "2024-02-01 00:00:00") (cstr "2024-01-05 00:00:00") = some 1 ∧
    t1GTt2 (cstr "2024-01-02 00:00:00") (cstr "2024-01-05 00:00:00") = some 0 := by
  decide

/-- C6. The cross-month example `t1GTt2("2024-02-01 00:00:00", "2024-01-31 23:59:59")`
returns 1 and the cross-year example
`t1GTt2("2023-12-31 23:59:59", "2024-01-01 00:00:00")` returns 0. -/
theorem t1GTt2_examples :
    t1GTt2 (cstr "2024-02-01 00:00:00") (cstr "2024-01-31 23:59:59") = some 1 ∧
    t1GTt2 (cstr "2023-12-31 23:59:59") (cstr "2024-01-01 00:00:00") = some 0 := by
  decide

/-- C7. Every string that satisfies every per-position rule of the layout
`YYYY-MM-DD hh:mm:ss` (in particular every such string of 19 characters) is
accepted: `isValidTime` returns 1. -/
theorem isValidTime_accepts (s : List Int) (h : layoutRules s) : isValidTime s = 1 :=
  isValidTime_of_layoutRules s h

/-- C7 at the 19-character string `2024-12-31 23:59:59`. -/
theorem isValidTime_accepts_witness :
    (cstr "2024-12-31 23:59:59").length = 19 ∧ layoutRules (cstr "2024-12-31 23:59:59") ∧
    isValidTime (cstr "2024-12-31 23:59:59") = 1 :=
  ⟨by decide, by decide, isValidTime_accepts (cstr "2024-12-31 23:59:59") (by decide)⟩

/-- A string that breaks one of the named rules does not meet the layout rules. -/
theorem not_layoutRules_of_violatesRule (s : List Int) (h : violatesRule s) :
    ¬ layoutRules s := by
  intro hl
  unfold layoutRules isDecDigit at hl
  unfold violatesRule isDecDigit digitPositions at h
  simp only [ord_zero, ord_one, ord_two, ord_three, ord_five, ord_nine, ord_dash, ord_space,
    ord_colon, List.mem_cons, List.mem_singleton, List.not_mem_nil, or_false,
    exists_eq_or_imp, exists_eq_left] at hl h
  obtain ⟨h0, h1, h2, h3, h4, h5, h6, h7, h8, h9, h10, h11, h12, h13, h14, h15, h16,
    h17, h18⟩ := hl
  rcases h with h | h | h | h | h | h | h | h | h | h | h | h | h | h
  · rcases h with h | h | h | h | h | h | h | h | h | h | h | h | h | h
    all_goals omega
  all_goals omega

/-- A string that meets no named violation meets the layout rules. -/
theorem layoutRules_of_not_violatesRule (s : List Int) (h : ¬ violatesRule s) :
    layoutRules s := by
  unfold violatesRule isDecDigit digitPositions at h
  unfold layoutRules isDecDigit
  simp only [ord_zero, ord_one, ord_two, ord_three, ord_five, ord_nine, ord_dash, ord_space,
    ord_colon, List.mem_cons, List.mem_singleton, List.not_mem_nil, or_false,
    exists_eq_or_imp, exists_eq_left, not_or] at h ⊢
  obtain ⟨⟨h0, h1, h2, h3, h5, h6, h8, h9, h11, h12, h14, h15, h17, h18⟩, h4, h7, h10, h13,
    h16, r5, r6, r8, r9, r11, r12, r14, r17⟩ := h
  refine ⟨?_, ?_, ?_, ?_, ?_, ?_, ?_, ?_, ?_, ?_, ?_, ?_, ?_, ?_, ?_, ?_, ?_, ?_, ?_⟩
  all_goals omega

/-- C8. Every string that violates at least one per-position rule (in
particular every such string of 19 characters) is rejected: `isValidTime`
returns -1 and not 1. -/
theorem isValidTime_rejects (s : List Int) (h : violatesRule s) :
    isValidTime s = -1 ∧ isValidTime s ≠ 1 := by
  have hne : isValidTime s ≠ 1 := fun h1 =>
    not_layoutRules_of_violatesRule s h (layoutRules_of_isValidTime s h1)
  rcases isValidTime_cases s with h1 | h1
  · exact absurd h1 hne
  · exact ⟨h1, hne⟩

/-- C8 at the 19-character string `2024-13-01 00:00:00` (month ones above 2
with tens 1). -/
theorem isValidTime_rejects_witness :
    (cstr "2024-13-01 00:00:00").length = 19 ∧ violatesRule (cstr "2024-13-01 00:00:00") ∧
    isValidTime (cstr "2024-13-01 00:00:00") = -1 ∧
    isValidTime (cstr "2024-13-01 00:00:00") ≠ 1 :=
  ⟨by decide, by decide, isValidTime_rejects (cstr "2024-13-01 00:00:00") (by decide)⟩

/-- C9 (divergence). The string `2024-01-01 00:00:00xyz` has 22 characters and
`isValidTime` returns 1 on it; an accepted string of 48 characters then
overflows the 48-byte copy in `t1GTt2`. -/
theorem isValidTime_accepts_longer :
    (cstr "2024-01-01 00:00:00xyz").length = 22 ∧
    isValidTime (cstr "2024-01-01 00:00:00xyz") = 1 ∧
    (cstr "2024-01-01 00:00:00 and then twenty-eight more..").length = 48 ∧
    isValidTime (cstr "2024-01-01 00:00:00 and then twenty-eight more..") = 1 ∧
    t1GTt2 (cstr "2024-01-01 00:00:01")
      (cstr "2024-01-01 00:00:00 and then twenty-eight more..") = none := by
  decide

/-- C10 (counterexample). The string `2024-00-00 00:00:00` is accepted and the
fields read from it have month 0 and day 0, outside the ranges 1..12 and
1..31 of the data model. -/
theorem accepted_month_day_zero :
    isValidTime (cstr "2024-00-00 00:00:00") = 1 ∧
    stampFields (cstr "2024-00-00 00:00:00") = some ((2024, 0, 0), (0, 0, 0)) ∧
    ¬ inSpecRange ((2024, 0, 0), (0, 0, 0)) := by
  decide

/-- C10 (amended). For every string accepted by `isValidTime`, the tokens are
found and `convertCalToArr` and `convertTimeToArr` read fields with month in
0..12, day in 0..31, hour in 0..23, minute in 0..59 and second in 0..59. -/
theorem accepted_fields_in_range (s : List Int) (h : isValidTime s = 1) :
    ∃ year month day hour minute second : Int,
      stampFields s = some ((year, month, day), (hour, minute, second)) ∧
      (0 ≤ month ∧ month ≤ 12) ∧ (0 ≤ day ∧ day ≤ 31) ∧ (0 ≤ hour ∧ hour ≤ 23) ∧
      (0 ≤ minute ∧ minute ≤ 59) ∧ (0 ≤ second ∧ second ≤ 59) :=
  ⟨_, _, _, _, _, _, stampFields_of_valid s h, (digitFields_bounds s h).2⟩

/-- C10 (amended) at `2024-12-31 23:59:59`. -/
theorem accepted_fields_in_range_witness :
    isValidTime (cstr "2024-12-31 23:59:59") = 1 ∧
    ∃ year month day hour minute second : Int,
      stampFields (cstr "2024-12-31 23:59:59")
        = some ((year, month, day), (hour, minute, second)) ∧
      (0 ≤ month ∧ month ≤ 12) ∧ (0 ≤ day ∧ day ≤ 31) ∧ (0 ≤ hour ∧ hour ≤ 23) ∧
      (0 ≤ minute ∧ minute ≤ 59) ∧ (0 ≤ second ∧ second ≤ 59) :=
  ⟨by decide, accepted_fields_in_range (cstr "2024-12-31 23:59:59") (by decide)⟩

/-! ## Rendering the modification time -/

/-- The formatted modification time, character by character, for a four-digit
year, a two-digit second and the other fields in 0..99. -/
theorem formatTimeStr_eq (t : Tm) (hy : 1000 ≤ t.tm_year + 1900 ∧ t.tm_year + 1900 ≤ 9999)
    (hm : 0 ≤ t.tm_mon + 1 ∧ t.tm_mon + 1 ≤ 99) (hd : 0 ≤ t.tm_mday ∧ t.tm_mday ≤ 99)
    (hh : 0 ≤ t.tm_hour ∧ t.tm_hour ≤ 99) (hi : 0 ≤ t.tm_min ∧ t.tm_min ≤ 99)
    (hs : 10 ≤ t.tm_sec ∧ t.tm_sec ≤ 99) :
    formatTimeStr t =
      [48 + (t.tm_year + 1900) / 1000, 48 + (t.tm_year + 1900) / 100 % 10,
        48 + (t.tm_year + 1900) / 10 % 10, 48 + (t.tm_year + 1900) % 10, 45,
        48 + (t.tm_mon + 1) / 10, 48 + (t.tm_mon + 1) % 10, 45,
        48 + t.tm_mday / 10, 48 + t.tm_mday % 10, 32,
        48 + t.tm_hour / 10, 48 + t.tm_hour % 10, 58,
        48 + t.tm_min / 10, 48 + t.tm_min % 10, 58,
        48 + t.tm_sec / 10, 48 + t.tm_sec % 10] := by
  unfold formatTimeStr
  rw [fmtD_four _ hy.1 (by omega), fmt02D_eq _ hm.1 (by omega),
    fmt02D_eq t.tm_mday hd.1 (by omega), fmt02D_eq t.tm_hour hh.1 (by omega),
    fmt02D_eq t.tm_min hi.1 (by omega), fmtD_two _ hs.1 (by omega)]
  simp only [ord_dash, ord_space, ord_colon, List.cons_append, List.nil_append, TIME_SIZE,
    List.take_succ_cons, List.take_nil, Nat.reduceSub]

/-- For a four-digit year and a second of two digits, `formatTimeStr` yields 19
characters that `isValidTime` accepts. -/
theorem formatTimeStr_canonical (t : Tm) (h : tmInRange t) (hs : 10 ≤ t.tm_sec) :
    (formatTimeStr t).length = 19 ∧ isValidTime (formatTimeStr t) = 1 := by
  obtain ⟨⟨hy0, hy1⟩, ⟨hm0, hm1⟩, ⟨hd0, hd1⟩, ⟨hh0, hh1⟩, ⟨hi0, hi1⟩, ⟨hs0, hs1⟩⟩ := h
  rw [formatTimeStr_eq t ⟨hy0, hy1⟩ (by omega) (by omega) (by omega) (by omega) (by omega)]
  refine ⟨rfl, isValidTime_of_layoutRules _ ?_⟩
  unfold layoutRules isDecDigit
  simp only [charAt, List.getD_cons_succ, List.getD_cons_zero, ord_zero, ord_one, ord_two,
    ord_three, ord_five, ord_nine, ord_dash, ord_space, ord_colon]
  refine ⟨?_, ?_, ?_, ?_, ?_, ?_, ?_, ?_, ?_, ?_, ?_, ?_, ?_, ?_, ?_, ?_, ?_, ?_, ?_⟩
  all_goals first | trivial | omega

/-- C11 (divergence). For the modification time 2024-01-09 04:03:05, whose
fields are in range, `formatTimeStr` yields the 18 characters
`2024-01-09 04:03:5`, which `isValidTime` rejects; for 0999-01-09 04:03:10 it
yields the 18 characters `999-01-09 04:03:10`, rejected as well. -/
theorem formatTimeStr_not_canonical :
    tmInRange ⟨5, 3, 4, 9, 0, 124⟩ ∧
    formatTimeStr ⟨5, 3, 4, 9, 0, 124⟩ = cstr "2024-01-09 04:03:5" ∧
    (formatTimeStr ⟨5, 3, 4, 9, 0, 124⟩).length = 18 ∧
    isValidTime (formatTimeStr ⟨5, 3, 4, 9, 0, 124⟩) = -1 ∧
    tmFields ⟨10, 3, 4, 9, 0, -901⟩ = ((999, 1, 9), (4, 3, 10)) ∧
    formatTimeStr ⟨10, 3, 4, 9, 0, -901⟩ = cstr "999-01-09 04:03:10" ∧
    isValidTime (formatTimeStr ⟨10, 3, 4, 9, 0, -901⟩) = -1 := by
  decide

/-- Parsing and re-rendering gives back an accepted 19-character string whose
year and second do not start with the digit 0. -/
theorem formatTimeStr_stampFields (s : List Int) (hlen : s.length = 19)
    (h : isValidTime s = 1) (hy : charAt s 0 ≠ ord '0') (hs : charAt s 17 ≠ ord '0') :
    formatTimeStr (tmOfFields (digitFields s)) = s := by
  have hl := layoutRules_of_isValidTime s h
  obtain ⟨c0, c1, c2, c3, c4, c5, c6, c7, c8, c9, c10, c11, c12, c13, c14, c15, c16, c17, c18,
    rest, rfl⟩ := exists_head19 s (by omega)
  have hrest : rest = [] := by
    simp only [List.length_cons] at hlen
    exact List.length_eq_zero.mp (by omega)
  subst hrest
  unfold layoutRules isDecDigit at hl
  simp only [charAt, List.getD_cons_succ, List.getD_cons_zero, ord_zero, ord_one, ord_two,
    ord_three, ord_five, ord_nine, ord_dash, ord_space, ord_colon] at hl hy hs
  obtain ⟨h0, h1, h2, h3, h4, h5, h6, h7, h8, h9, h10, h11, h12, h13, h14, h15, h16,
    h17, h18⟩ := hl
  rw [formatTimeStr_eq]
  · unfold tmOfFields digitFields
    simp only [charAt, List.getD_cons_succ, List.getD_cons_zero, List.cons.injEq, and_true]
    refine ⟨?_, ?_, ?_, ?_, ?_, ?_, ?_, ?_, ?_, ?_, ?_, ?_, ?_, ?_, ?_, ?_, ?_, ?_, ?_⟩
    all_goals omega
  all_goals
    unfold tmOfFields digitFields
    simp only [charAt, List.getD_cons_succ, List.getD_cons_zero]
    omega

/-- C12 (divergence). The 19-character string `2024-01-09 04:03:05` meets every
layout rule and parses to (2024, 1, 9, 4, 3, 5); rendering these fields with
`formatTimeStr` yields `2024-01-09 04:03:5`, not the string itself. -/
theorem reformat_changes_string :
    (cstr "2024-01-09 04:03:05").length = 19 ∧ layoutRules (cstr "2024-01-09 04:03:05") ∧
    stampFields (cstr "2024-01-09 04:03:05") = some ((2024, 1, 9), (4, 3, 5)) ∧
    formatTimeStr (tmOfFields ((2024, 1, 9), (4, 3, 5))) = cstr "2024-01-09 04:03:5" ∧
    formatTimeStr (tmOfFields ((2024, 1, 9), (4, 3, 5))) ≠ cstr "2024-01-09 04:03:05" := by
  decide

/-! ## The command line -/

/-- An accepted string is neither the switch `-h` nor the switch `-t`. -/
theorem valid_ne_switch (v : List Int) (h : isValidTime v = 1) :
    v ≠ cstr "-h" ∧ v ≠ cstr "-t" := by
  have hl := length_of_isValidTime v h
  constructor <;> intro e <;> rw [e] at hl <;> revert hl <;> decide

/-- The two switches are different strings. -/
theorem switch_t_ne_h : cstr "-t" ≠ cstr "-h" := by decide

/-- C13 (amended). For every accepted timestamp string `v`, every file system
and every argument vector `prog -t v dir` whose `dir` is an openable directory
other than `-h` and `-t`, `commandLineSwitch` returns 1 with `timeLimit` set to
`v` itself and the traversal started on the directory; nothing in the result
depends on whether `v` names a file. -/
theorem commandLineSwitch_literal (fs : FileSystem) (prog v dir d : List Int)
    (hv : isValidTime v = 1) (hh : dir ≠ cstr "-h") (ht : dir ≠ cstr "-t")
    (hr : fs.realpath dir = some d) (ho : fs.opendir d = true) :
    commandLineSwitch fs [prog, cstr "-t", v, dir] 4
      = some ⟨1, some v, some (d, fs.nftw d v)⟩ := by
  obtain ⟨hvh, hvt⟩ := valid_ne_switch v hv
  simp [commandLineSwitch, switchLoop, switchStep, argAt, switch_t_ne_h, hvh, hvt, hv, hh, ht,
    hr, ho]

/-- C13 (counterexample). With the accepted value `2099-01-01 00:00:00` and the
directory argument `-h`, which resolves and opens in the file system
`fsPresent 0`, `commandLineSwitch` returns 1 and leaves `timeLimit` unset. -/
theorem commandLineSwitch_literal_help :
    isValidTime (cstr "2099-01-01 00:00:00") = 1 ∧
    (fsPresent 0).realpath (cstr "-h") = some (cstr "-h") ∧
    (fsPresent 0).opendir (cstr "-h") = true ∧
    commandLineSwitch (fsPresent 0)
      [cstr "backupfiles", cstr "-t", cstr "2099-01-01 00:00:00", cstr "-h"] 4
      = some ⟨1, none, none⟩ := by
  decide

/-- C13 (amended) at `backupfiles -t "2099-01-01 00:00:00" .` in a file system
where only `.` resolves. -/
theorem commandLineSwitch_literal_witness :
    isValidTime (cstr "2099-01-01 00:00:00") = 1 ∧
    (fsDot 0).realpath (cstr "2099-01-01 00:00:00") = none ∧
    commandLineSwitch (fsDot 0)
      [cstr "backupfiles", cstr "-t", cstr "2099-01-01 00:00:00", cstr "."] 4
      = some ⟨1, some (cstr "2099-01-01 00:00:00"),
          some (cstr ".", (fsDot 0).nftw (cstr ".") (cstr "2099-01-01 00:00:00"))⟩ :=
  ⟨by decide, by decide,
    commandLineSwitch_literal (fsDot 0) (cstr "backupfiles") (cstr "2099-01-01 00:00:00")
      (cstr ".") (cstr ".") (by decide) (by decide) (by decide) (by decide) (by decide)⟩

/-- C15 (amended). For every argument vector `prog -t v dir` where `v` is
rejected by `isValidTime`, does not resolve to an existing path and is not `-h`,
`commandLineSwitch` returns -1 with `timeLimit` unset and `nftw` not called, and
`main` returns `EXIT_FAILURE`. -/
theorem commandLineSwitch_no_such_file (fs : FileSystem) (prog v dir : List Int)
    (hv : isValidTime v ≠ 1) (hr : fs.realpath v = none) (hh : v ≠ cstr "-h") :
    commandLineSwitch fs [prog, cstr "-t", v, dir] 4 = some ⟨-1, none, none⟩ ∧
    main fs [prog, cstr "-t", v, dir] = some EXIT_FAILURE := by
  have h1 : commandLineSwitch fs [prog, cstr "-t", v, dir] 4 = some ⟨-1, none, none⟩ := by
    simp [commandLineSwitch, switchLoop, switchStep, argAt, switch_t_ne_h, hv, hr, hh]
  refine ⟨h1, ?_⟩
  unfold main
  simp only [List.length_cons, List.length_nil, Nat.reduceAdd, h1]
  rfl

/-- C15 (counterexample). In a file system where no path resolves, the value
`-h` is rejected by `isValidTime` and does not resolve, yet on
`backupfiles -t -h .` `commandLineSwitch` returns 1 and `main` returns
`EXIT_SUCCESS`. -/
theorem commandLineSwitch_value_help :
    isValidTime (cstr "-h") ≠ 1 ∧ fsAbsent.realpath (cstr "-h") = none ∧
    commandLineSwitch fsAbsent [cstr "backupfiles", cstr "-t", cstr "-h", cstr "."] 4
      = some ⟨1, none, none⟩ ∧
    main fsAbsent [cstr "backupfiles", cstr "-t", cstr "-h", cstr "."] = some EXIT_SUCCESS := by
  decide

/-- C15 (amended) at `backupfiles -t not-a-date-not-a-file .` in a file system
where only `.` resolves. -/
theorem commandLineSwitch_no_such_file_witness :
    isValidTime (cstr "not-a-date-not-a-file") ≠ 1 ∧
    (fsDot 0).realpath (cstr "not-a-date-not-a-file") = none ∧
    cstr "not-a-date-not-a-file" ≠ cstr "-h" ∧
    commandLineSwitch (fsDot 0)
      [cstr "backupfiles", cstr "-t", cstr "not-a-date-not-a-file", cstr "."] 4
      = some ⟨-1, none, none⟩ ∧
    main (fsDot 0) [cstr "backupfiles", cstr "-t", cstr "not-a-date-not-a-file", cstr "."]
      = some EXIT_FAILURE :=
  ⟨by decide, by decide, by decide,
    commandLineSwitch_no_such_file (fsDot 0) (cstr "backupfiles")
      (cstr "not-a-date-not-a-file") (cstr ".") (by decide) (by decide) (by decide)⟩

/-- One round of the loop, unfolded. -/
theorem switchLoop_succ (fs : FileSystem) (argv : List (List Int)) (n fuel i : Nat)
    (time : List Int) (hi : i < n) :
    switchLoop fs argv n (fuel + 1) i time =
      match switchStep fs argv n i time with
      | none => none
      | some (Flow.returned r) => some (Flow.returned r)
      | some (Flow.continues time) => switchLoop fs argv n fuel (i + 1) time := by
  rw [switchLoop, if_pos hi]

/-- The loop is over once the index reaches `sizeOfArgs`. -/
theorem switchLoop_done (fs : FileSystem) (argv : List (List Int)) (n fuel i : Nat)
    (time : List Int) (hi : ¬ i < n) :
    switchLoop fs argv n fuel i time = some (Flow.continues time) := by
  unfold switchLoop
  rw [if_neg hi]

/-- A round on an argument that is no switch changes nothing. -/
theorem switchStep_plain (fs : FileSystem) (argv : List (List Int)) (n i : Nat)
    (time a : List Int) (ha : argv.get? i = some a) (ht : a ≠ cstr "-t") (hh : a ≠ cstr "-h") :
    switchStep fs argv n i time = some (Flow.continues time) := by
  simp only [switchStep, argAt, ha, if_neg ht, if_neg hh]

/-- Without switches from index `i` on, the loop ends with `time` unchanged. -/
theorem switchLoop_no_switch (fs : FileSystem) (argv : List (List Int)) :
    ∀ (fuel i : Nat) (time : List Int), argv.length ≤ i + fuel →
      (∀ j a, i ≤ j → argv.get? j = some a → a ≠ cstr "-t" ∧ a ≠ cstr "-h") →
      switchLoop fs argv argv.length fuel i time = some (Flow.continues time) := by
  intro fuel
  induction fuel with
  | zero =>
    intro i time hf _
    exact switchLoop_done fs argv _ _ _ _ (by omega)
  | succ fuel ih =>
    intro i time hf h
    by_cases hi : i < argv.length
    · obtain ⟨a, ha⟩ : ∃ a, argv.get? i = some a := ⟨argv.get ⟨i, hi⟩, List.get?_eq_get hi⟩
      have hne := h i a (Nat.le_refl i) ha
      rw [switchLoop_succ fs argv _ _ _ _ hi, switchStep_plain fs argv _ _ _ a ha hne.1 hne.2]
      exact ih (i + 1) time (by omega) (fun j b hj hb => h j b (by omega) hb)
    · exact switchLoop_done fs argv _ _ _ _ hi

/-- An argument after the program name is a member of the tail. -/
theorem mem_tail_of_get? (argv : List (List Int)) (j : Nat) (a : List Int) (hj : 1 ≤ j)
    (ha : argv.get? j = some a) : a ∈ argv.tail := by
  cases argv with
  | nil => simp at ha
  | cons x rest =>
    obtain ⟨k, rfl⟩ : ∃ k, j = k + 1 := ⟨j - 1, by omega⟩
    simp only [List.get?_cons_succ] at ha
    exact List.get?_mem ha

/-- C14. For every argument vector that contains neither `-t` nor `-h` after
the program name and whose last argument resolves to a directory that opens,
`commandLineSwitch` returns 1 with `timeLimit` set to `1970-01-01 00:00:00` (and
the traversal started on that directory). -/
theorem commandLineSwitch_default (fs : FileSystem) (argv : List (List Int))
    (last d : List Int) (hlast : argv.getLast? = some last)
    (hsw : ∀ a ∈ argv.tail, a ≠ cstr "-t" ∧ a ≠ cstr "-h")
    (hr : fs.realpath last = some d) (ho : fs.opendir d = true) :
    commandLineSwitch fs argv argv.length
      = some ⟨1, some (cstr "1970-01-01 00:00:00"),
          some (d, fs.nftw d (cstr "1970-01-01 00:00:00"))⟩ := by
  have hloop := switchLoop_no_switch fs argv argv.length 1 (cstr "1970-01-01 00:00:00")
    (by omega) (fun j a hj ha => hsw a (mem_tail_of_get? argv j a hj ha))
  have hne : argv.length ≠ 0 := by
    intro h0
    rw [List.length_eq_zero.mp h0] at hlast
    simp at hlast
  have hl : argAt argv (argv.length - 1) = some last := by
    unfold argAt
    rw [List.get?_eq_getElem?, ← List.getLast?_eq_getElem?]
    exact hlast
  unfold commandLineSwitch
  simp only [hloop, if_neg hne, hl, hr, ho, if_true]

/-- C14 at `backupfiles some-name .` in a file system where only `.` resolves. -/
theorem commandLineSwitch_default_witness :
    [cstr "backupfiles", cstr "some-name", cstr "."].getLast? = some (cstr ".") ∧
    (∀ a ∈ [cstr "backupfiles", cstr "some-name", cstr "."].tail,
      a ≠ cstr "-t" ∧ a ≠ cstr "-h") ∧
    commandLineSwitch (fsDot 0) [cstr "backupfiles", cstr "some-name", cstr "."] 3
      = some ⟨1, some (cstr "1970-01-01 00:00:00"),
          some (cstr ".", (fsDot 0).nftw (cstr ".") (cstr "1970-01-01 00:00:00"))⟩ :=
  ⟨by decide, by decide,
    commandLineSwitch_default (fsDot 0) [cstr "backupfiles", cstr "some-name", cstr "."]
      (cstr ".") (cstr ".") (by decide) (by decide) (by decide) (by decide)⟩

/-- A round never fails when the argument after a `-t` exists, and it returns
only 1 (on `-h`) or -1. -/
theorem switchStep_total (fs : FileSystem) (argv : List (List Int)) (n i : Nat)
    (time a : List Int) (ha : argv.get? i = some a)
    (hnext : a = cstr "-t" → ∃ v, argv.get? (i + 1) = some v) :
    (a = cstr "-h" ∧ switchStep fs argv n i time = some (Flow.returned 1)) ∨
    (a ≠ cstr "-h" ∧ (switchStep fs argv n i time = some (Flow.returned (-1)) ∨
      ∃ t, switchStep fs argv n i time = some (Flow.continues t))) := by
  by_cases hh : a = cstr "-h"
  · left
    refine ⟨hh, ?_⟩
    simp only [switchStep, argAt, ha, if_pos hh]
  · right
    refine ⟨hh, ?_⟩
    by_cases ht : a = cstr "-t"
    · obtain ⟨v, hv⟩ := hnext ht
      simp only [switchStep, argAt, ha, if_neg hh, if_pos ht, hv]
      split_ifs
      · exact Or.inr ⟨_, rfl⟩
      · cases fs.realpath v with
        | none => exact Or.inl rfl
        | some file => exact Or.inr ⟨_, rfl⟩
      · exact Or.inr ⟨_, rfl⟩
    · simp only [switchStep, argAt, ha, if_neg hh, if_neg ht]
      exact Or.inr ⟨_, rfl⟩

/-- Without `-h` from index `i` on and with a last argument other than `-t`, the
loop ends or returns -1. -/
theorem switchLoop_no_help (fs : FileSystem) (argv : List (List Int)) (last : List Int)
    (hlast : argv.get? (argv.length - 1) = some last) (hlt : last ≠ cstr "-t") :
    ∀ (fuel i : Nat) (time : List Int), argv.length ≤ i + fuel →
      (∀ j a, i ≤ j → argv.get? j = some a → a ≠ cstr "-h") →
      switchLoop fs argv argv.length fuel i time = some (Flow.returned (-1)) ∨
      ∃ t, switchLoop fs argv argv.length fuel i time = some (Flow.continues t) := by
  intro fuel
  induction fuel with
  | zero =>
    intro i time hf _
    exact Or.inr ⟨time, switchLoop_done fs argv _ _ _ _ (by omega)⟩
  | succ fuel ih =>
    intro i time hf h
    by_cases hi : i < argv.length
    · obtain ⟨a, ha⟩ : ∃ a, argv.get? i = some a := ⟨argv.get ⟨i, hi⟩, List.get?_eq_get hi⟩
      have hnext : a = cstr "-t" → ∃ v, argv.get? (i + 1) = some v := by
        intro hat
        have hne : i ≠ argv.length - 1 := by
          intro e
          rw [← e, ha] at hlast
          exact hlt ((Option.some.inj hlast).symm.trans hat)
        have hi1 : i + 1 < argv.length := by omega
        exact ⟨argv.get ⟨i + 1, hi1⟩, List.get?_eq_get hi1⟩
      rw [switchLoop_succ fs argv _ _ _ _ hi]
      rcases switchStep_total fs argv argv.length i time a ha hnext with ⟨hh, _⟩ | ⟨_, hs | ⟨t, hs⟩⟩
      · exact absurd hh (h i a (Nat.le_refl i) ha)
      · rw [hs]; exact Or.inl rfl
      · rw [hs]
        exact ih (i + 1) t (by omega) (fun j b hj hb => h j b (by omega) hb)
    · exact Or.inr ⟨time, switchLoop_done fs argv _ _ _ _ hi⟩

/-- Without `-h` after the program name, with a last argument that is not `-t` and
that resolves to a path `opendir` does not open, `commandLineSwitch` returns -1
without calling `nftw`, and `main` returns `EXIT_FAILURE`. -/
theorem commandLineSwitch_unopenable (fs : FileSystem) (argv : List (List Int))
    (last d : List Int) (hlast : argv.getLast? = some last)
    (hnoh : ∀ a ∈ argv.tail, a ≠ cstr "-h") (hlt : last ≠ cstr "-t")
    (hres : fs.realpath last = some d) (hbad : fs.opendir d = false) :
    commandLineSwitch fs argv argv.length = some ⟨-1, none, none⟩ ∧
    main fs argv = some EXIT_FAILURE := by
  have hl : argv.get? (argv.length - 1) = some last := by
    rw [List.get?_eq_getElem?, ← List.getLast?_eq_getElem?]
    exact hlast
  have hne : argv.length ≠ 0 := by
    intro h0
    rw [List.length_eq_zero.mp h0] at hlast
    simp at hlast
  have h1 : commandLineSwitch fs argv argv.length = some ⟨-1, none, none⟩ := by
    unfold commandLineSwitch
    rcases switchLoop_no_help fs argv last hl hlt argv.length 1 (cstr "1970-01-01 00:00:00")
      (by omega) (fun j a hj ha => hnoh a (mem_tail_of_get? argv j a hj ha)) with hs | ⟨t, hs⟩
    · rw [hs]
    · simp only [hs, if_neg hne, argAt, hl, hres, hbad, Bool.false_eq_true, if_false]
  refine ⟨h1, ?_⟩
  unfold main
  rw [h1]
  rfl

/-- On `backupfiles nodir`, the one argument not resolving, `realpath` returns
NULL, which `commandLineSwitch` hands to `opendir`: neither it nor `main`
returns a value. -/
theorem commandLineSwitch_missing_directory :
    fsAbsent.realpath (cstr "nodir") = none ∧
    commandLineSwitch fsAbsent [cstr "backupfiles", cstr "nodir"] 2 = none ∧
    main fsAbsent [cstr "backupfiles", cstr "nodir"] = none := by
  decide

/-- C16 (divergence). On `backupfiles -t`, an argument vector without `-h` whose
final argument `-t` does not resolve, `commandLineSwitch` hands the NULL pointer
`argv[2]` to `strcmp` and returns nothing, and so does `main`. -/
theorem commandLineSwitch_lone_t :
    cstr "backupfiles" ≠ cstr "-h" ∧ cstr "-t" ≠ cstr "-h" ∧
    fsAbsent.realpath (cstr "-t") = none ∧
    commandLineSwitch fsAbsent [cstr "backupfiles", cstr "-t"] 2 = none ∧
    main fsAbsent [cstr "backupfiles", cstr "-t"] = none := by
  decide

/-- Up to a first `-h` at index `k` the loop returns: 1, or -1 from a `-t`
before it whose value is rejected and does not resolve. -/
theorem switchLoop_help (fs : FileSystem) (argv : List (List Int)) (k : Nat)
    (hk : argv.get? k = some (cstr "-h")) :
    ∀ (fuel i : Nat) (time : List Int), i ≤ k → k < i + fuel →
      (∀ j, i ≤ j → j < k → argv.get? j ≠ some (cstr "-h")) →
      ∃ r, switchLoop fs argv argv.length fuel i time = some (Flow.returned r) ∧
        (r = 1 ∨ r = -1) ∧
        ((∀ j v, i ≤ j → j + 1 < k → argv.get? j = some (cstr "-t") →
            argv.get? (j + 1) = some v → isValidTime v = 1 ∨ fs.realpath v ≠ none) →
          r = 1) := by
  have hkn : k < argv.length := (List.get?_eq_some.mp hk).1
  intro fuel
  induction fuel with
  | zero => intro i time h1 h2; omega
  | succ fuel ih =>
    intro i time hik hfuel hfirst
    have hi : i < argv.length := by omega
    rw [switchLoop_succ fs argv _ _ _ _ hi]
    by_cases hek : i = k
    · subst hek
      have hs : switchStep fs argv argv.length i time = some (Flow.returned 1) := by
        simp only [switchStep, argAt, hk, if_true]
      rw [hs]
      exact ⟨1, rfl, Or.inl rfl, fun _ => rfl⟩
    · have hlt : i < k := by omega
      obtain ⟨a, ha⟩ : ∃ a, argv.get? i = some a := ⟨argv.get ⟨i, hi⟩, List.get?_eq_get hi⟩
      have hah : a ≠ cstr "-h" := fun e => hfirst i (Nat.le_refl i) hlt (e ▸ ha)
      have hi1 : i + 1 < argv.length := by omega
      obtain ⟨v, hv⟩ : ∃ v, argv.get? (i + 1) = some v :=
        ⟨argv.get ⟨i + 1, hi1⟩, List.get?_eq_get hi1⟩
      have hrec : ∀ t, ∃ r, switchLoop fs argv argv.length fuel (i + 1) t
          = some (Flow.returned r) ∧ (r = 1 ∨ r = -1) ∧
          ((∀ j v, i ≤ j → j + 1 < k → argv.get? j = some (cstr "-t") →
              argv.get? (j + 1) = some v → isValidTime v = 1 ∨ fs.realpath v ≠ none) →
            r = 1) := by
        intro t
        obtain ⟨r, hr, hr1, hr2⟩ := ih (i + 1) t (by omega) (by omega)
          (fun j hj hjk => hfirst j (by omega) hjk)
        exact ⟨r, hr, hr1, fun hgood => hr2 (fun j w hj hjk => hgood j w (by omega) hjk)⟩
      by_cases hat : a = cstr "-t"
      · by_cases hcond : v ≠ cstr "-h" ∧ (i : Int) ≠ (argv.length : Int) - 2
        · by_cases hval : isValidTime v = 1
          · have hs : switchStep fs argv argv.length i time = some (Flow.continues v) := by
              simp only [switchStep, argAt, ha, if_neg hah, if_pos hat, hv, if_pos hcond,
                if_pos hval]
            rw [hs]
            exact hrec v
          · cases hrp : fs.realpath v with
            | none =>
              have hs : switchStep fs argv argv.length i time = some (Flow.returned (-1)) := by
                simp only [switchStep, argAt, ha, if_neg hah, if_pos hat, hv, if_pos hcond,
                  if_neg hval, hrp]
              rw [hs]
              refine ⟨-1, rfl, Or.inr rfl, fun hgood => ?_⟩
              have hik1 : i + 1 < k := by
                rcases Nat.lt_or_ge (i + 1) k with h | h
                · exact h
                · have e : i + 1 = k := by omega
                  rw [e, hk] at hv
                  exact absurd (Option.some.inj hv).symm hcond.1
              rcases hgood i v (Nat.le_refl i) hik1 (hat ▸ ha) hv with h | h
              · exact absurd h hval
              · exact absurd hrp h
            | some file =>
              have hs : switchStep fs argv argv.length i time
                  = some (Flow.continues (formatTimeStr (fs.mtime file))) := by
                simp only [switchStep, argAt, ha, if_neg hah, if_pos hat, hv, if_pos hcond,
                  if_neg hval, hrp]
              rw [hs]
              exact hrec _
        · have hs : switchStep fs argv argv.length i time = some (Flow.continues time) := by
            simp only [switchStep, argAt, ha, if_neg hah, if_pos hat, hv, if_neg hcond]
          rw [hs]
          exact hrec time
      · rw [switchStep_plain fs argv _ _ _ a ha hat hah]
        exact hrec time

/-- C17 (amended). For every argument vector in which `-h` appears after the
program name, first at index `k`, `commandLineSwitch` never starts the traversal
and returns 1 or -1; it returns 1, and `main` `EXIT_SUCCESS`, when every `-t`
before that `-h` (other than one directly before it) is followed by a value that
`isValidTime` accepts or that resolves to an existing path. -/
theorem commandLineSwitch_help (fs : FileSystem) (argv : List (List Int)) (k : Nat)
    (hk1 : 1 ≤ k) (hk : argv.get? k = some (cstr "-h"))
    (hfirst : ∀ j, 1 ≤ j → j < k → argv.get? j ≠ some (cstr "-h")) :
    ∃ r, commandLineSwitch fs argv argv.length = some ⟨r, none, none⟩ ∧ (r = 1 ∨ r = -1) ∧
      ((∀ j v, 1 ≤ j → j + 1 < k → argv.get? j = some (cstr "-t") →
          argv.get? (j + 1) = some v → isValidTime v = 1 ∨ fs.realpath v ≠ none) →
        r = 1 ∧ main fs argv = some EXIT_SUCCESS) := by
  have hkn : k < argv.length := (List.get?_eq_some.mp hk).1
  obtain ⟨r, hr, hr1, hr2⟩ := switchLoop_help fs argv k hk argv.length 1
    (cstr "1970-01-01 00:00:00") hk1 (by omega) hfirst
  have hc : commandLineSwitch fs argv argv.length = some ⟨r, none, none⟩ := by
    unfold commandLineSwitch
    rw [hr]
  refine ⟨r, hc, hr1, fun hgood => ?_⟩
  have e := hr2 hgood
  refine ⟨e, ?_⟩
  unfold main
  rw [hc, e]
  rfl

/-- C17 (counterexample). On `backupfiles -t nofile -h`, in a file system where
only `.` resolves, `commandLineSwitch` returns -1 and `main` `EXIT_FAILURE`. -/
theorem commandLineSwitch_help_after_bad_t :
    cstr "-h" ∈ [cstr "backupfiles", cstr "-t", cstr "nofile", cstr "-h"].tail ∧
    commandLineSwitch (fsDot 0) [cstr "backupfiles", cstr "-t", cstr "nofile", cstr "-h"] 4
      = some ⟨-1, none, none⟩ ∧
    main (fsDot 0) [cstr "backupfiles", cstr "-t", cstr "nofile", cstr "-h"]
      = some EXIT_FAILURE := by
  decide

/-- C17 (amended) at `backupfiles -t -h .`, where `-h` stands at index 2 directly
after `-t`. -/
theorem commandLineSwitch_help_witness :
    [cstr "backupfiles", cstr "-t", cstr "-h", cstr "."].get? 2 = some (cstr "-h") ∧
    ∃ r, commandLineSwitch (fsDot 0) [cstr "backupfiles", cstr "-t", cstr "-h", cstr "."] 4
        = some ⟨r, none, none⟩ ∧ (r = 1 ∨ r = -1) ∧
      ((∀ j v, 1 ≤ j → j + 1 < 2 →
          [cstr "backupfiles", cstr "-t", cstr "-h", cstr "."].get? j = some (cstr "-t") →
          [cstr "backupfiles", cstr "-t", cstr "-h", cstr "."].get? (j + 1) = some v →
          isValidTime v = 1 ∨ (fsDot 0).realpath v ≠ none) →
        r = 1 ∧ main (fsDot 0) [cstr "backupfiles", cstr "-t", cstr "-h", cstr "."]
          = some EXIT_SUCCESS) :=
  ⟨by decide,
    commandLineSwitch_help (fsDot 0) [cstr "backupfiles", cstr "-t", cstr "-h", cstr "."] 2
      (by decide) (by decide)
      (fun j hj hjk => by
        have e : j = 1 := by omega
        subst e
        decide)⟩

/-! ## The traversal callback and the exit status -/

/-- The loop of `readDir` finishes when the test is defined on every entry. -/
theorem readDirLoop_isSome (timeLimit : List Int) (entries : List Tm)
    (h : ∀ e ∈ entries, (readDirTest e timeLimit).isSome) :
    ∃ printed, readDirLoop timeLimit entries = some printed := by
  induction entries with
  | nil => exact ⟨[], rfl⟩
  | cons e rest ih =>
    obtain ⟨b, hb⟩ := Option.isSome_iff_exists.mp (h e (List.mem_cons_self e rest))
    obtain ⟨p, hp⟩ := ih (fun x hx => h x (List.mem_cons_of_mem e hx))
    exact ⟨if b then e :: p else p, by simp only [readDirLoop, hb, hp]⟩

/-- The callback `traverse` returns 0 for every visited entry that is not a
directory and for every directory that `readDir` opens (the test being defined
on its entries); for a directory that `readDir` fails to open it returns -1. -/
theorem traverse_result (timeLimit : List Int) (st_mode : Nat) :
    (S_ISDIR st_mode ≠ 1 → ∀ dir, traverse timeLimit st_mode dir = some 0) ∧
    (S_ISDIR st_mode = 1 → ∀ entries, (∀ e ∈ entries, (readDirTest e timeLimit).isSome) →
      traverse timeLimit st_mode (some entries) = some 0) ∧
    (S_ISDIR st_mode = 1 → traverse timeLimit st_mode none = some (-1)) := by
  refine ⟨fun h dir => ?_, fun h entries he => ?_, fun h => ?_⟩
  · unfold traverse
    rw [if_neg h]
  · obtain ⟨p, hp⟩ := readDirLoop_isSome timeLimit entries he
    unfold traverse
    rw [if_pos h]
    simp only [readDir, hp]
    rfl
  · unfold traverse
    rw [if_pos h]
    rfl

/-- C18 (divergence). For a directory (mode 040755) that `readDir` fails to
open, `readDir` returns -1 and `traverse` returns -1, not 0: `nftw` stops the
walk on a value other than 0. -/
theorem traverse_unopened_directory :
    S_ISDIR 0o040755 = 1 ∧
    readDir (cstr "1970-01-01 00:00:00") none = some (-1, []) ∧
    traverse (cstr "1970-01-01 00:00:00") 0o040755 none = some (-1) := by
  decide

/-- The values of `traverse` at a regular file (mode 0100644), at a directory
(mode 040755) holding one entry modified at 2024-01-09 04:03:05, and at a
directory that does not open. -/
theorem traverse_result_witness :
    S_ISDIR 0o100644 ≠ 1 ∧ S_ISDIR 0o040755 = 1 ∧
    traverse (cstr "1970-01-01 00:00:00") 0o100644 none = some 0 ∧
    traverse (cstr "1970-01-01 00:00:00") 0o040755 (some [⟨5, 3, 4, 9, 0, 124⟩]) = some 0 ∧
    traverse (cstr "1970-01-01 00:00:00") 0o040755 none = some (-1) :=
  ⟨by decide, by decide,
    (traverse_result (cstr "1970-01-01 00:00:00") 0o100644).1 (by decide) none,
    (traverse_result (cstr "1970-01-01 00:00:00") 0o040755).2.1 (by decide)
      [⟨5, 3, 4, 9, 0, 124⟩] (by decide),
    (traverse_result (cstr "1970-01-01 00:00:00") 0o040755).2.2 (by decide)⟩

/-- C19 (divergence). On `backupfiles .` with `.` an openable directory and
`nftw` returning -1, `commandLineSwitch` returns 1 and `main` returns
`EXIT_SUCCESS`, which is 0; the `main` of `listfiles.c` returns `EXIT_FAILURE`
for the same value of `nftw`. -/
theorem main_ignores_nftw_failure :
    commandLineSwitch (fsDot (-1)) [cstr "backupfiles", cstr "."] 2
      = some ⟨1, some (cstr "1970-01-01 00:00:00"), some (cstr ".", -1)⟩ ∧
    main (fsDot (-1)) [cstr "backupfiles", cstr "."] = some EXIT_SUCCESS ∧
    EXIT_SUCCESS = 0 ∧
    ListFiles.main (-1) = EXIT_FAILURE ∧ EXIT_FAILURE ≠ 0 := by
  decide

/-- The test `(fileMode & bit) > 0` of `getPermissions` for a one-bit mask. -/
theorem land_two_pow_pos (mode i : Nat) : mode &&& 2 ^ i > 0 ↔ hasBit mode (2 ^ i) := by
  unfold hasBit
  rw [Nat.and_two_pow]
  have h2 : 0 < 2 ^ i := Nat.two_pow_pos i
  cases hb : mode.testBit i
  · have : ¬ (mode / 2 ^ i % 2 = 1) := by
      rw [Nat.testBit_to_div_mod] at hb
      simpa using hb
    simp [this]
  · have : mode / 2 ^ i % 2 = 1 := by
      rw [Nat.testBit_to_div_mod] at hb
      simpa using hb
    simp [this, h2]

/-! ## Permission strings -/

/-- The two programs have the same `getPermissions`. -/
theorem getPermissions_listfiles (mode : Nat) :
    ListFiles.getPermissions mode = getPermissions mode := rfl

/-- C20. For every file mode, `getPermissions` (of `backupfiles.c` and of
`listfiles.c`) returns exactly 10 characters: character 0 is `d` if the mode is a
directory and `-` otherwise, and characters 1..9 are `r`, `w`, `x` for user,
group and other exactly when the permission bit 0400, 0200, 0100, 0040, 0020,
0010, 0004, 0002, 0001 is set, and `-` when it is clear. -/
theorem getPermissions_chars (mode : Nat) :
    ListFiles.getPermissions mode = getPermissions mode ∧
    (getPermissions mode).length = 10 ∧
    charAt (getPermissions mode) 0 = (if S_ISDIR mode = 1 then ord 'd' else ord '-') ∧
    charAt (getPermissions mode) 1 = (if hasBit mode 0o400 then ord 'r' else ord '-') ∧
    charAt (getPermissions mode) 2 = (if hasBit mode 0o200 then ord 'w' else ord '-') ∧
    charAt (getPermissions mode) 3 = (if hasBit mode 0o100 then ord 'x' else ord '-') ∧
    charAt (getPermissions mode) 4 = (if hasBit mode 0o040 then ord 'r' else ord '-') ∧
    charAt (getPermissions mode) 5 = (if hasBit mode 0o020 then ord 'w' else ord '-') ∧
    charAt (getPermissions mode) 6 = (if hasBit mode 0o010 then ord 'x' else ord '-') ∧
    charAt (getPermissions mode) 7 = (if hasBit mode 0o004 then ord 'r' else ord '-') ∧
    charAt (getPermissions mode) 8 = (if hasBit mode 0o002 then ord 'w' else ord '-') ∧
    charAt (getPermissions mode) 9 = (if hasBit mode 0o001 then ord 'x' else ord '-') := by
  have h8 : mode &&& 256 > 0 ↔ hasBit mode 256 := land_two_pow_pos mode 8
  have h7 : mode &&& 128 > 0 ↔ hasBit mode 128 := land_two_pow_pos mode 7
  have h6 : mode &&& 64 > 0 ↔ hasBit mode 64 := land_two_pow_pos mode 6
  have h5 : mode &&& 32 > 0 ↔ hasBit mode 32 := land_two_pow_pos mode 5
  have h4 : mode &&& 16 > 0 ↔ hasBit mode 16 := land_two_pow_pos mode 4
  have h3 : mode &&& 8 > 0 ↔ hasBit mode 8 := land_two_pow_pos mode 3
  have h2 : mode &&& 4 > 0 ↔ hasBit mode 4 := land_two_pow_pos mode 2
  have h1 : mode &&& 2 > 0 ↔ hasBit mode 2 := land_two_pow_pos mode 1
  have h0 : mode &&& 1 > 0 ↔ hasBit mode 1 := land_two_pow_pos mode 0
  refine ⟨rfl, rfl, rfl, ?_, ?_, ?_, ?_, ?_, ?_, ?_, ?_, ?_⟩
  · show (if mode &&& 256 > 0 then ord 'r' else ord '-') = _
    simp only [h8]
  · show (if mode &&& 128 > 0 then ord 'w' else ord '-') = _
    simp only [h7]
  · show (if mode &&& 64 > 0 then ord 'x' else ord '-') = _
    simp only [h6]
  · show (if mode &&& 32 > 0 then ord 'r' else ord '-') = _
    simp only [h5]
  · show (if mode &&& 16 > 0 then ord 'w' else ord '-') = _
    simp only [h4]
  · show (if mode &&& 8 > 0 then ord 'x' else ord '-') = _
    simp only [h3]
  · show (if mode &&& 4 > 0 then ord 'r' else ord '-') = _
    simp only [h2]
  · show (if mode &&& 2 > 0 then ord 'w' else ord '-') = _
    simp only [h1]
  · show (if mode &&& 1 > 0 then ord 'x' else ord '-') = _
    simp only [h0]

/-! ## Number conversion, memory effects and read bounds -/

/-- The loop of `toPower` multiplies by the base once per round. -/
theorem toPowerLoop_eq (base : Int) (n : Nat) (val : Int) :
    toPowerLoop base n val = val * base ^ n := by
  induction n generalizing val with
  | zero => simp [toPowerLoop]
  | succ n ih => rw [toPowerLoop, ih, pow_succ]; ring

/-- For a positive exponent `toPower` is the power. -/
theorem toPower_eq (base : Int) (n : Nat) : toPower base ((n : Int) + 1) = base ^ (n + 1) := by
  unfold toPower
  rw [toPowerLoop_eq]
  have : ((n : Int) + 1 - 1).toNat = n := by omega
  rw [this, pow_succ]; ring

/-- The loop of `convertStrToNum` adds the decimal value of the characters left,
when `exponent` is their number minus one. -/
theorem convertStrToNumLoop_eq (cs : List Int) (num : Int) :
    convertStrToNumLoop cs ((cs.length : Int) - 1) num = num + decimalValue cs := by
  induction cs generalizing num with
  | nil => simp [convertStrToNumLoop, decimalValue]
  | cons c cs ih =>
    have hexp : ((c :: cs).length : Int) - 1 = (cs.length : Int) := by
      simp only [List.length_cons]; push_cast; omega
    rw [hexp, convertStrToNumLoop]
    simp only [ord_zero]
    rw [ih, decimalValue, ord_zero]
    cases hl : cs.length with
    | zero => simp; ring
    | succ n =>
      have hpos : ((n + 1 : Nat) : Int) > 0 := by omega
      rw [if_pos hpos]
      have : ((n + 1 : Nat) : Int) = (n : Int) + 1 := by push_cast; rfl
      rw [this, toPower_eq]
      ring

/-- Without regard to the range of `int`, `convertStrToNum` is the decimal
value, for every string. -/
theorem convertStrToNum_eq (s : List Int) : convertStrToNum s = decimalValue s := by
  unfold convertStrToNum
  rw [convertStrToNumLoop_eq]
  simp

/-- An `int` expression whose value is in range has that value. -/
theorem int32_of_range (x : Int) (h1 : -2147483648 ≤ x) (h2 : x ≤ 2147483647) :
    int32 x = some x := by
  unfold int32
  rw [if_pos ⟨h1, h2⟩]

/-- The powers of ten up to the eighth, computed by `toPower` in `int`
arithmetic. -/
theorem toPower32_ten (n : Nat) (h1 : 1 ≤ n) (h8 : n ≤ 8) :
    toPower32 10 (n : Int) = some (10 ^ n) := by
  interval_cases n <;> rfl

/-- The powers of ten up to the ninth. -/
theorem ten_pow_le (n : Nat) (h : n ≤ 9) : (1 : Int) ≤ 10 ^ n ∧ (10 : Int) ^ n ≤ 1000000000 := by
  interval_cases n <;> norm_num

/-- In `int` arithmetic the loop of `convertStrToNum` adds the decimal value of
the digits left, as long as the total stays below ten to the ninth. -/
theorem convertStrToNumLoop32_eq (cs : List Int) :
    ∀ num : Int, cs.length ≤ 9 → (∀ c ∈ cs, isDecDigit c) → 0 ≤ num →
      num + 10 ^ cs.length ≤ 1000000000 →
      convertStrToNumLoop32 cs ((cs.length : Int) - 1) num = some (num + decimalValue cs) := by
  induction cs with
  | nil => intro num _ _ _ _; simp [convertStrToNumLoop32, decimalValue]
  | cons c cs ih =>
    intro num hlen hdig hnum hbound
    have hexp : ((c :: cs).length : Int) - 1 = (cs.length : Int) := by
      simp only [List.length_cons]; push_cast; omega
    have hc := hdig c (List.mem_cons_self c cs)
    unfold isDecDigit at hc
    simp only [ord_zero, ord_nine] at hc
    have hlen' : cs.length ≤ 8 := by simp only [List.length_cons] at hlen; omega
    obtain ⟨hP1, hP2⟩ := ten_pow_le cs.length (by omega)
    have hsucc : (10 : Int) ^ (c :: cs).length = 10 * 10 ^ cs.length := by
      simp only [List.length_cons, pow_succ]; ring
    rw [hsucc] at hbound
    have hd0 : 0 ≤ (c - 48) * 10 ^ cs.length := Int.mul_nonneg (by omega) (by omega)
    have hd9 : (c - 48) * 10 ^ cs.length ≤ 9 * 10 ^ cs.length :=
      Int.mul_le_mul_of_nonneg_right (by omega) (by omega)
    have hih := ih (num + (c - 48) * 10 ^ cs.length) (by omega)
      (fun x hx => hdig x (List.mem_cons_of_mem c hx)) (by omega) (by omega)
    rw [hexp, convertStrToNumLoop32]
    simp only [ord_zero]
    rw [int32_of_range (c - 48) (by omega) (by omega)]
    simp only
    by_cases hl : cs.length = 0
    · have hz : ¬ ((cs.length : Int) > 0) := by omega
      rw [if_neg hz, int32_of_range ((c - 48) * 1) (by omega) (by omega)]
      simp only
      have hpow : (10 : Int) ^ cs.length = 1 := by rw [hl]; rfl
      rw [hpow, mul_one] at hih hd0 hd9
      rw [int32_of_range ((cs.length : Int) - 1) (by omega) (by omega),
        int32_of_range (num + (c - 48) * 1) (by omega) (by omega)]
      simp only
      rw [mul_one, hih, decimalValue, ord_zero, hpow, mul_one, add_assoc]
    · have hp : (cs.length : Int) > 0 := by omega
      rw [if_pos hp, toPower32_ten cs.length (by omega) hlen']
      simp only
      rw [int32_of_range ((c - 48) * 10 ^ cs.length) (by omega) (by omega)]
      simp only
      rw [int32_of_range ((cs.length : Int) - 1) (by omega) (by omega),
        int32_of_range (num + (c - 48) * 10 ^ cs.length) (by omega) (by omega)]
      simp only
      rw [hih, decimalValue, ord_zero, add_assoc]

/-- C21. For every string of at most 9 decimal digits (leading zeros allowed),
`convertStrToNum` returns the decimal value of the string, the sum over the
positions `i` of `digit_i * 10 ^ (length - 1 - i)`, and no operation of the
computation leaves the range of `int`. -/
theorem convertStrToNum_decimal (s : List Int) (hlen : s.length ≤ 9)
    (hdig : ∀ c ∈ s, isDecDigit c) :
    convertStrToNum32 s = some (decimalValue s) ∧ convertStrToNum s = decimalValue s := by
  refine ⟨?_, convertStrToNum_eq s⟩
  unfold convertStrToNum32
  obtain ⟨_, h2⟩ := ten_pow_le s.length hlen
  rw [convertStrToNumLoop32_eq s 0 hlen hdig (le_refl 0) (by omega)]
  simp

/-- C21 at the strings `2500` and `07`. -/
theorem convertStrToNum_decimal_witness :
    decimalValue (cstr "2500") = 2500 ∧ decimalValue (cstr "07") = 7 ∧
    (convertStrToNum32 (cstr "2500") = some (decimalValue (cstr "2500")) ∧
      convertStrToNum (cstr "2500") = decimalValue (cstr "2500")) ∧
    (convertStrToNum32 (cstr "07") = some (decimalValue (cstr "07")) ∧
      convertStrToNum (cstr "07") = decimalValue (cstr "07")) :=
  ⟨by decide, by decide,
    convertStrToNum_decimal (cstr "2500") (by decide) (by decide),
    convertStrToNum_decimal (cstr "07") (by decide) (by decide)⟩

/-- Ten digits can leave the range of `int`: on `3000000000` the product
`3 * 10^9` overflows. -/
theorem convertStrToNum32_overflow : convertStrToNum32 (cstr "3000000000") = none := by
  decide

/-- The comparison answers `1` when the years are equal and the first day is the
greater one, whatever the months are. -/
theorem t1GTt2Compare_of_day (a b : Fields) (hy : a.1.1 = b.1.1) (hd : a.1.2.2 > b.1.2.2) :
    t1GTt2Compare a.1 a.2 b.1 b.2 = 1 := by
  unfold t1GTt2Compare
  split_ifs <;> omega

/-- For accepted timestamp strings `A` and `B`, `B` fitting the 48-byte copy,
that have the same year and `day(A) > day(B)`, `t1GTt2 A B` returns 1 whatever
their months are: the day comparison does not ask for equal months. -/
theorem t1GTt2_day_ignores_month (A B : List Int) (hA : isValidTime A = 1)
    (hB : isValidTime B = 1) (hlen : B.length < 48)
    (hday : ∀ fa fb, stampFields A = some fa → stampFields B = some fb →
      fa.1.1 = fb.1.1 ∧ fa.1.2.2 > fb.1.2.2) :
    t1GTt2 A B = some 1 := by
  have hfA := stampFields_of_valid A hA
  have hfB := stampFields_of_valid B hB
  obtain ⟨hy, hd⟩ := hday _ _ hfA hfB
  rw [t1GTt2_of_fields A B _ _ hlen hfA hfB, t1GTt2Compare_of_day _ _ hy hd]

/-- The day comparison at `2024-01-31 00:00:00` and `2024-02-01 00:00:00`, where
the month of the first string is the smaller one. -/
theorem t1GTt2_day_ignores_month_witness :
    isValidTime (cstr "2024-01-31 00:00:00") = 1 ∧
    isValidTime (cstr "2024-02-01 00:00:00") = 1 ∧
    stampFields (cstr "2024-01-31 00:00:00") = some ((2024, 1, 31), (0, 0, 0)) ∧
    stampFields (cstr "2024-02-01 00:00:00") = some ((2024, 2, 1), (0, 0, 0)) ∧
    t1GTt2 (cstr "2024-01-31 00:00:00") (cstr "2024-02-01 00:00:00") = some 1 :=
  ⟨by decide, by decide, by decide, by decide,
    t1GTt2_day_ignores_month (cstr "2024-01-31 00:00:00") (cstr "2024-02-01 00:00:00")
      (by decide) (by decide) (by decide)
      (fun fa fb ha hb => by
        have ea : fa = ((2024, 1, 31), (0, 0, 0)) :=
          (Option.some.inj ((by decide : stampFields (cstr "2024-01-31 00:00:00")
            = some ((2024, 1, 31), (0, 0, 0))).symm.trans ha)).symm
        have eb : fb = ((2024, 2, 1), (0, 0, 0)) :=
          (Option.some.inj ((by decide : stampFields (cstr "2024-02-01 00:00:00")
            = some ((2024, 2, 1), (0, 0, 0))).symm.trans hb)).symm
        rw [ea, eb]; decide)⟩

/-- C22 (divergence). The strings `2024-01-31 00:00:00` and `2024-02-01 00:00:00`
followed by 61 letters `x` are both accepted and have the same year, the day of
the first being the greater; the second, 80 characters long, does not fit the
48 bytes of `t2Copy`, and `t1GTt2` does not return 1. -/
theorem t1GTt2_overlong_threshold :
    isValidTime (cstr "2024-01-31 00:00:00") = 1 ∧
    isValidTime (cstr "2024-02-01 00:00:00" ++ List.replicate 61 (ord 'x')) = 1 ∧
    stampFields (cstr "2024-01-31 00:00:00") = some ((2024, 1, 31), (0, 0, 0)) ∧
    stampFields (cstr "2024-02-01 00:00:00" ++ List.replicate 61 (ord 'x'))
      = some ((2024, 2, 1), (0, 0, 0)) ∧
    (cstr "2024-02-01 00:00:00" ++ List.replicate 61 (ord 'x')).length = 80 ∧
    t1GTt2 (cstr "2024-01-31 00:00:00")
      (cstr "2024-02-01 00:00:00" ++ List.replicate 61 (ord 'x')) = none := by
  decide

/-- C24. For every broken-down time with year 1000..9999, month 1..12, day
1..31, hour 0..23, minute 0..59 and second 0..59 (seconds below 10 included),
tokenising the output of `formatTimeStr` at the space and applying
`convertCalToArr` to the first token and `convertTimeToArr` to the second gives
exactly `[year, month, day]` and `[hour, minute, second]`. -/
theorem parse_formatTimeStr (t : Tm) (h : tmInRange t) :
    stampFields (formatTimeStr t)
      = some ((t.tm_year + 1900, t.tm_mon + 1, t.tm_mday), (t.tm_hour, t.tm_min, t.tm_sec)) :=
  stampFields_formatTimeStr t h

/-- C24 at 2024-01-09 04:03:05, a time with a second below 10. -/
theorem parse_formatTimeStr_witness :
    tmInRange ⟨5, 3, 4, 9, 0, 124⟩ ∧
    formatTimeStr ⟨5, 3, 4, 9, 0, 124⟩ = cstr "2024-01-09 04:03:5" ∧
    stampFields (formatTimeStr ⟨5, 3, 4, 9, 0, 124⟩) = some ((2024, 1, 9), (4, 3, 5)) :=
  ⟨by decide, by decide, parse_formatTimeStr ⟨5, 3, 4, 9, 0, 124⟩ (by decide)⟩

/-- The two calls of `strtok` on the buffer `p` write to that buffer only. -/
theorem tokenise_frame (heap heap' : Heap) (p : Nat) (a b : Option Nat)
    (h : tokenise heap p = some (a, b, heap')) :
    heap'.length = heap.length ∧ ∀ q, q ≠ p → heap'.get? q = heap.get? q := by
  unfold tokenise at h
  cases hp : heap.get? p with
  | none => rw [hp] at h; exact absurd h (by simp)
  | some buf =>
    rw [hp] at h
    simp only at h
    cases h1 : strtok buf 0 with
    | none => rw [h1] at h; exact absurd h (by simp)
    | some r1 =>
      obtain ⟨first, buf1, save⟩ := r1
      rw [h1] at h
      simp only at h
      cases h2 : strtok buf1 save with
      | none => rw [h2] at h; exact absurd h (by simp)
      | some r2 =>
        obtain ⟨second, buf2, save2⟩ := r2
        rw [h2] at h
        simp only [Option.some.injEq, Prod.mk.injEq] at h
        obtain ⟨-, -, rfl⟩ := h
        refine ⟨List.length_set _ _ _, fun q hq => ?_⟩
        rw [List.get?_eq_getElem?, List.get?_eq_getElem?, List.getElem?_set_ne (Ne.symm hq)]

/-- A successful call of `t1GTt2` leaves every buffer other than `t1` as it was,
and adds the one buffer of `t2Copy`. -/
theorem t1GTt2Heap_frame (heap heap' : Heap) (t1 t2 : Nat) (r : Int)
    (h : t1GTt2Heap heap t1 t2 = some (r, heap')) :
    heap'.length = heap.length + 1 ∧
    ∀ q, q ≠ t1 → q < heap.length → heap'.get? q = heap.get? q := by
  unfold t1GTt2Heap at h
  cases ht2 : heap.get? t2 with
  | none => rw [ht2] at h; exact absurd h (by simp)
  | some t2Buf =>
    rw [ht2] at h
    simp only at h
    split_ifs at h with hfit
    cases hk1 : tokenise (heap ++ [strOfArray t2Buf ++ [0]]) t1 with
    | none => rw [hk1] at h; exact absurd h (by simp)
    | some r1 =>
      obtain ⟨t1Cal, t1Time, heap1⟩ := r1
      rw [hk1] at h
      simp only at h
      cases hk2 : tokenise heap1 heap.length with
      | none => rw [hk2] at h; exact absurd h (by simp)
      | some r2 =>
        obtain ⟨t2Cal, t2Time, heap2⟩ := r2
        rw [hk2] at h
        simp only at h
        have hret : heap' = heap2 := by
          split at h
          · split at h
            · simp only [Option.some.injEq, Prod.mk.injEq] at h
              exact h.2.symm
            · exact absurd h (by simp)
          · exact absurd h (by simp)
        subst hret
        obtain ⟨hl1, hf1⟩ := tokenise_frame _ _ _ _ _ hk1
        obtain ⟨hl2, hf2⟩ := tokenise_frame _ _ _ _ _ hk2
        refine ⟨?_, fun q hq hlt => ?_⟩
        · rw [hl2, hl1, List.length_append]
          rfl
        · rw [hf2 q (by omega), hf1 q hq, List.get?_eq_getElem?, List.get?_eq_getElem?,
            List.getElem?_append_left hlt]

/-- What a successful `stampFields` went through: both tokens exist and both
conversions return. -/
theorem stampFields_inv (t : List Int) (f : Fields) (h : stampFields t = some f) :
    ∃ cal buf1 save time buf2 save2,
      strtok (t ++ [0]) 0 = some (some cal, buf1, save) ∧
      strtok buf1 save = some (some time, buf2, save2) ∧
      convertCalToArr buf2 cal = some f.1 ∧ convertTimeToArr buf2 time = some f.2 := by
  unfold stampFields at h
  dsimp only at h
  cases h1 : strtok (t ++ [0]) 0 with
  | none => rw [h1] at h; exact absurd h (by simp)
  | some r1 =>
    obtain ⟨cal, buf1, save⟩ := r1
    rw [h1] at h
    simp only [Option.bind_eq_bind, Option.some_bind] at h
    cases h2 : strtok buf1 save with
    | none => rw [h2] at h; exact absurd h (by simp)
    | some r2 =>
      obtain ⟨time, buf2, save2⟩ := r2
      rw [h2] at h
      simp only [Option.some_bind] at h
      cases cal with
      | none => exact absurd h (by simp)
      | some cal =>
        simp only [Option.some_bind] at h
        cases hc : convertCalToArr buf2 cal with
        | none => rw [hc] at h; exact absurd h (by simp)
        | some calArr =>
          rw [hc] at h
          simp only [Option.some_bind] at h
          cases time with
          | none => exact absurd h (by simp)
          | some time =>
            simp only [Option.some_bind] at h
            cases ht : convertTimeToArr buf2 time with
            | none => rw [ht] at h; exact absurd h (by simp)
            | some timeArr =>
              rw [ht] at h
              simp only [Option.some_bind, Option.pure_def, Option.some.injEq] at h
              subst h
              exact ⟨cal, buf1, save, time, buf2, save2, rfl, h2, hc, ht⟩

/-- The two calls of `strtok` on the buffer `p`, the results of both known. -/
theorem tokenise_eq (heap : Heap) (p : Nat) (buf buf1 buf2 : List Int)
    (first second : Option Nat) (save save2 : Nat) (hp : heap.get? p = some buf)
    (h1 : strtok buf 0 = some (first, buf1, save))
    (h2 : strtok buf1 save = some (second, buf2, save2)) :
    tokenise heap p = some (first, second, heap.set p buf2) := by
  unfold tokenise
  rw [hp]
  simp only [h1, h2]

/-- The string of a buffer that holds a string without NUL and its terminator. -/
theorem strOfArray_append_nul (s : List Int) (h : (0 : Int) ∉ s) : strOfArray (s ++ [0]) = s := by
  induction s with
  | nil => simp [strOfArray]
  | cons c cs ih =>
    have hc : c ≠ 0 := fun e => h (by simp [e])
    have hcs : (0 : Int) ∉ cs := fun e => h (List.mem_cons_of_mem c e)
    have := ih hcs
    simp only [strOfArray, ne_eq, decide_not] at this ⊢
    simp [List.takeWhile_cons, hc, this]

/-- The function `t1GTt2` on memory returns what `t1GTt2` returns on the two
strings, whenever both strings have fields and the copy of `t2` fits. -/
theorem t1GTt2Heap_of_fields (heap : Heap) (t1 t2 : Nat) (A B : List Int) (a b : Fields)
    (h1 : heap.get? t1 = some (A ++ [0])) (h2 : heap.get? t2 = some (B ++ [0]))
    (h0 : (0 : Int) ∉ B) (hlen : B.length < 48)
    (ha : stampFields A = some a) (hb : stampFields B = some b) :
    ∃ heap', t1GTt2Heap heap t1 t2 = some (t1GTt2Compare a.1 a.2 b.1 b.2, heap') := by
  obtain ⟨calA, bufA1, saveA, timeA, bufA2, saveA2, hA1, hA2, hA3, hA4⟩ := stampFields_inv A a ha
  obtain ⟨calB, bufB1, saveB, timeB, bufB2, saveB2, hB1, hB2, hB3, hB4⟩ := stampFields_inv B b hb
  have ht1 : t1 < heap.length := by
    rw [List.get?_eq_getElem?] at h1
    exact (List.getElem?_eq_some_iff.mp h1).1
  have hg1 : (heap ++ [B ++ [0]]).get? t1 = some (A ++ [0]) := by
    rw [List.get?_eq_getElem?, List.getElem?_append_left ht1, ← List.get?_eq_getElem?, h1]
  have hk1 := tokenise_eq (heap ++ [B ++ [0]]) t1 _ _ _ _ _ _ _ hg1 hA1 hA2
  have hlen1 : ((heap ++ [B ++ [0]]).set t1 bufA2).length = heap.length + 1 := by
    rw [List.length_set, List.length_append]
    rfl
  have hg2 : ((heap ++ [B ++ [0]]).set t1 bufA2).get? heap.length = some (B ++ [0]) := by
    rw [List.get?_eq_getElem?, List.getElem?_set_ne (by omega),
      List.getElem?_append_right (le_refl _)]
    simp
  have hk2 := tokenise_eq _ heap.length _ _ _ _ _ _ _ hg2 hB1 hB2
  have hr1 : (((heap ++ [B ++ [0]]).set t1 bufA2).set heap.length bufB2).get? t1
      = some bufA2 := by
    rw [List.get?_eq_getElem?, List.getElem?_set_ne (by omega), List.getElem?_set_self]
    rw [List.length_append]
    simp only [List.length_singleton]
    omega
  have hr2 : (((heap ++ [B ++ [0]]).set t1 bufA2).set heap.length bufB2).get? heap.length
      = some bufB2 := by
    rw [List.get?_eq_getElem?, List.getElem?_set_self]
    rw [hlen1]
    omega
  refine ⟨((heap ++ [B ++ [0]]).set t1 bufA2).set heap.length bufB2, ?_⟩
  unfold t1GTt2Heap
  rw [h2]
  simp only
  rw [strOfArray_append_nul B h0, if_neg (by simp; omega), hk1]
  simp only
  rw [hk2]
  simp only
  rw [hr1, hr2]
  simp only [hA3, hA4, hB3, hB4]

/-- The call writes to the buffer of `t1`: after comparing the buffer
`2024-02-01 00:00:00` with the threshold `2024-01-31 23:59:59`, the space of the
first buffer is a NUL, the threshold is as before, and the copy is a third
buffer. When both arguments are one buffer, that buffer is written to. -/
theorem t1GTt2Heap_writes_t1 :
    t1GTt2Heap [cstr "2024-02-01 00:00:00" ++ [0], cstr "2024-01-31 23:59:59" ++ [0]] 0 1
      = some (1, [cstr "2024-02-01" ++ [0] ++ cstr "00:00:00" ++ [0],
          cstr "2024-01-31 23:59:59" ++ [0],
          cstr "2024-01-31" ++ [0] ++ cstr "23:59:59" ++ [0]]) ∧
    t1GTt2Heap [cstr "2024-01-31 23:59:59" ++ [0]] 0 0
      = some (0, [cstr "2024-01-31" ++ [0] ++ cstr "23:59:59" ++ [0],
          cstr "2024-01-31" ++ [0] ++ cstr "23:59:59" ++ [0]]) := by
  decide

/-- C23. Let `t2` point to the buffer `t2Buf`. After every call `t1GTt2(t1, t2)`
that returns, `t1` being another buffer, `t2` holds `t2Buf` as before. In the
call of `readDir`, where `t1` is the buffer `formatTimeStr` has allocated and
`t2` is `timeLimit`, the threshold holds `t2Buf` after the call; that call
returns, with the value of `t1GTt2` on the two strings, for every in-range
modification time and every accepted threshold whose copy fits 48 bytes. -/
theorem t1GTt2_keeps_t2 (heap : Heap) (t2 : Nat) (t2Buf : List Int)
    (h2 : heap.get? t2 = some t2Buf) :
    (∀ t1 r heap', t1 ≠ t2 → t1GTt2Heap heap t1 t2 = some (r, heap') →
      heap'.get? t2 = some t2Buf) ∧
    (∀ mtime r heap', readDirCall heap t2 mtime = some (r, heap') →
      heap'.get? t2 = some t2Buf) ∧
    (∀ mtime B, tmInRange mtime → t2Buf = B ++ [0] → (0 : Int) ∉ B → B.length < 48 →
      isValidTime B = 1 →
      ∃ r heap', readDirCall heap t2 mtime = some (r, heap') ∧
        t1GTt2 (formatTimeStr mtime) B = some r ∧ heap'.get? t2 = some t2Buf) := by
  have hlt : t2 < heap.length := by
    rw [List.get?_eq_getElem?] at h2
    exact (List.getElem?_eq_some_iff.mp h2).1
  have hcall : ∀ mtime r heap', readDirCall heap t2 mtime = some (r, heap') →
      heap'.get? t2 = some t2Buf := by
    intro mtime r heap' h
    unfold readDirCall at h
    rw [(t1GTt2Heap_frame _ _ _ _ _ h).2 t2 (by omega)
      (by rw [List.length_append]; omega), List.get?_eq_getElem?,
      List.getElem?_append_left hlt, ← List.get?_eq_getElem?, h2]
  refine ⟨fun t1 r heap' hne h => ?_, hcall, fun mtime B hr hB h0 hlen hv => ?_⟩
  · rw [(t1GTt2Heap_frame _ _ _ _ _ h).2 t2 (Ne.symm hne) hlt, h2]
  · subst hB
    have ha := stampFields_formatTimeStr mtime hr
    have hb := stampFields_of_valid B hv
    have hg1 : (heap ++ [formatTimeStr mtime ++ [0]]).get? heap.length
        = some (formatTimeStr mtime ++ [0]) := by
      rw [List.get?_eq_getElem?, List.getElem?_append_right (le_refl _)]
      simp
    have hg2 : (heap ++ [formatTimeStr mtime ++ [0]]).get? t2 = some (B ++ [0]) := by
      rw [List.get?_eq_getElem?, List.getElem?_append_left hlt, ← List.get?_eq_getElem?, h2]
    obtain ⟨heap', hh⟩ := t1GTt2Heap_of_fields _ _ _ _ _ _ _ hg1 hg2 h0 hlen ha hb
    exact ⟨_, heap', hh, t1GTt2_of_fields _ _ _ _ hlen ha hb, hcall mtime _ heap' hh⟩

/-- C23 (witness). The threshold `2024-01-31 23:59:59` in buffer 0 and a file
modified at 04:03:05 on 9 January 2024: the call of `readDir` returns 0 and the
threshold is as before. -/
theorem t1GTt2_keeps_t2_witness :
    readDirCall [cstr "2024-01-31 23:59:59" ++ [0]] 0 ⟨5, 3, 4, 9, 0, 124⟩
      = some (0, [cstr "2024-01-31 23:59:59" ++ [0],
          cstr "2024-01-09" ++ [0] ++ cstr "04:03:5" ++ [0],
          cstr "2024-01-31" ++ [0] ++ cstr "23:59:59" ++ [0]]) ∧
    List.get? [cstr "2024-01-31 23:59:59" ++ [0],
          cstr "2024-01-09" ++ [0] ++ cstr "04:03:5" ++ [0],
          cstr "2024-01-31" ++ [0] ++ cstr "23:59:59" ++ [0]] 0
      = some (cstr "2024-01-31 23:59:59" ++ [0]) :=
  ⟨by decide, (t1GTt2_keeps_t2 [cstr "2024-01-31 23:59:59" ++ [0]] 0
    (cstr "2024-01-31 23:59:59" ++ [0]) rfl).2.1 ⟨5, 3, 4, 9, 0, 124⟩ 0 _ (by decide)⟩

/-- A character other than NUL moves the terminator by one. -/
theorem strlen_cons (c : Int) (cs : List Int) (hc : c ≠ 0) :
    strlen (c :: cs) = strlen cs + 1 := by
  simp [strlen, strOfArray, List.takeWhile_cons, hc]

/-- A position is at or before the terminator when every position before it
holds a character other than NUL. -/
theorem le_strlen (s : List Int) : ∀ k : Nat, (∀ j, j < k → charAt s j ≠ 0) → k ≤ strlen s := by
  induction s with
  | nil =>
    intro k h
    rcases Nat.eq_zero_or_pos k with hk | hk
    · omega
    · exact absurd rfl (h 0 hk)
  | cons c cs ih =>
    intro k h
    rcases Nat.eq_zero_or_pos k with hk | hk
    · omega
    · obtain ⟨m, rfl⟩ : ∃ m, k = m + 1 := ⟨k - 1, by omega⟩
      have hc : c ≠ 0 := h 0 hk
      have hm := ih m (fun j hj => h (j + 1) (by omega))
      rw [strlen_cons c cs hc]
      omega

/-- The position of the terminator holds NUL. -/
theorem charAt_strlen (s : List Int) : charAt s (strlen s) = 0 := by
  induction s with
  | nil => rfl
  | cons c cs ih =>
    by_cases hc : c = 0
    · subst hc
      rfl
    · rw [strlen_cons c cs hc]
      exact ih

/-- One test of the checked chain agrees with the test of the plain chain when
the positions it examines are at or before the terminator. -/
theorem checkedTest_step (time : List Int) (reads : List Nat) (bad : Prop) [Decidable bad]
    (rest : Option Int) (plain : Int) (hr : ∀ k ∈ reads, k ≤ strlen time)
    (h : ¬ bad → rest = some plain) :
    checkedTest time reads bad rest = some (if bad then -1 else plain) := by
  unfold checkedTest
  have hall : reads.all (fun k => decide (k ≤ strlen time)) = true := by
    rw [List.all_eq_true]
    intro k hk
    exact decide_eq_true (hr k hk)
  rw [if_pos hall]
  by_cases hb : bad
  · rw [if_pos hb, if_pos hb]
  · rw [if_neg hb, if_neg hb]
    exact h hb

/-- With bounds-checked indexing `isValidTime` never leaves the string: the
checked validator returns what the validator returns. -/
theorem isValidTimeChecked_eq (s : List Int) : isValidTimeChecked s = some (isValidTime s) := by
  unfold isValidTimeChecked isValidTime
  simp only [ord_zero, ord_one, ord_two, ord_three, ord_five, ord_nine, ord_dash, ord_space,
    ord_colon]
  repeat
    refine checkedTest_step _ _ _ _ _ (fun k hk => le_strlen _ _ (fun j hj => ?_)) (fun _ => ?_)
    · have hj19 : j < 19 := by
        simp only [List.mem_cons, List.mem_singleton, List.not_mem_nil, or_false] at hk
        omega
      simp only [List.mem_cons, List.mem_singleton, List.not_mem_nil, or_false] at hk
      interval_cases j <;> omega
  rfl

/-- Before the terminator every position holds a character other than NUL. -/
theorem charAt_ne_zero_of_lt_strlen (s : List Int) :
    ∀ j : Nat, j < strlen s → charAt s j ≠ 0 := by
  induction s with
  | nil => intro j hj; exact absurd hj (Nat.not_lt_zero j)
  | cons c cs ih =>
    intro j hj
    by_cases hc : c = 0
    · subst hc
      exact absurd hj (Nat.not_lt_zero j)
    · rw [strlen_cons c cs hc] at hj
      cases j with
      | zero => exact hc
      | succ m => exact ih m (by omega)

/-- The elements of `argv` read by the loop and by the call of `realpath` after
it lie below `sizeOfArgs` when the last argument is not `-t`. -/
theorem switchLoopReads_lt (fs : FileSystem) (argv : List (List Int)) (hn : 1 ≤ argv.length)
    (hlast : argv.get? (argv.length - 1) ≠ some (cstr "-t")) :
    ∀ (fuel i : Nat) (time : List Int),
      ∀ j ∈ switchLoopReads fs argv argv.length fuel i time, j < argv.length := by
  intro fuel
  induction fuel with
  | zero =>
    intro i time j hj
    unfold switchLoopReads at hj
    by_cases hi : i < argv.length
    · rw [if_pos hi] at hj
      exact absurd hj (List.not_mem_nil j)
    · rw [if_neg hi, List.mem_singleton] at hj
      omega
  | succ fuel ih =>
    intro i time j hj
    unfold switchLoopReads at hj
    by_cases hi : i < argv.length
    · rw [if_pos hi] at hj
      simp only [List.mem_append] at hj
      rcases hj with hj | hj
      · obtain ⟨a, ha⟩ : ∃ a, argv.get? i = some a := ⟨argv.get ⟨i, hi⟩, List.get?_eq_get hi⟩
        unfold switchStepReads argAt at hj
        rw [ha] at hj
        simp only at hj
        split_ifs at hj with hh ht
        · rw [List.mem_singleton] at hj; omega
        · have hne : i ≠ argv.length - 1 := by
            intro e
            rw [← e, ha, ht] at hlast
            exact hlast rfl
          simp only [List.mem_cons, List.mem_singleton, List.not_mem_nil, or_false] at hj
          omega
        · rw [List.mem_singleton] at hj; omega
      · cases hs : switchStep fs argv argv.length i time with
        | none => rw [hs] at hj; exact absurd hj (List.not_mem_nil j)
        | some f =>
          cases f with
          | returned r => rw [hs] at hj; exact absurd hj (List.not_mem_nil j)
          | continues t => rw [hs] at hj; exact ih (i + 1) t j hj
    · rw [if_neg hi, List.mem_singleton] at hj
      omega

/-- When the last argument is not `-t`, `commandLineSwitch` reads `argv[j]` only
for `j` below `sizeOfArgs`. -/
theorem commandLineSwitchReads_lt (fs : FileSystem) (argv : List (List Int))
    (hn : 1 ≤ argv.length) (hlast : argv.get? (argv.length - 1) ≠ some (cstr "-t")) :
    ∀ j ∈ commandLineSwitchReads fs argv argv.length, j < argv.length :=
  switchLoopReads_lt fs argv hn hlast argv.length 1 (cstr "1970-01-01 00:00:00")

/-- C25. For every string (the empty one included), a position is at or before
the terminator exactly when every position before it holds a character other
than NUL, and `isValidTime` with bounds-checked indexing never takes the
out-of-range branch: it returns what `isValidTime` returns. -/
theorem isValidTime_reads_in_string (s : List Int) :
    (∀ k, k ≤ strlen s ↔ ∀ j, j < k → charAt s j ≠ 0) ∧
    isValidTimeChecked s ≠ none ∧ isValidTimeChecked s = some (isValidTime s) := by
  refine ⟨fun k => ⟨fun hk j hj => charAt_ne_zero_of_lt_strlen s j (by omega), le_strlen s k⟩,
    ?_, isValidTimeChecked_eq s⟩
  rw [isValidTimeChecked_eq s]
  exact Option.some_ne_none _

/-- C26 (divergence). On `backupfiles -t`, with `sizeOfArgs` 2, the round at index
1 finds `-t` and reads `argv[2]`, the NULL pointer after the arguments: the
elements read are `argv[1]` and `argv[2]`, and the value after `-t` is no
string. -/
theorem commandLineSwitch_reads_past_end :
    [cstr "backupfiles", cstr "-t"].length = 2 ∧
    commandLineSwitchReads fsAbsent [cstr "backupfiles", cstr "-t"] 2 = [1, 2] ∧
    ¬ (∀ j ∈ commandLineSwitchReads fsAbsent [cstr "backupfiles", cstr "-t"] 2, j < 2) ∧
    argAt [cstr "backupfiles", cstr "-t"] 1 = some (cstr "-t") ∧
    argAt [cstr "backupfiles", cstr "-t"] (1 + 1) = none := by
  decide

end BackupFiles
